import Mathlib

/-!
# SupaConsole core: a shallow embedding

Verification of the provisioning / exposure core of SupaConsole
(`src/lib/project.ts` and `src/lib/cloudflared.ts`).  Strings are modelled
as `List Char`; the JavaScript regular-expression rewrites used by the
source are modelled by an explicit scanner (`scan`) over a small pattern
language (`RItem`) that covers exactly the constructs the source uses:
literal characters, the `.` wildcard (any char except a line terminator),
`\s*` and an optional quote `["']?`.  Stateful operations are modelled by
explicit state passing; fallible operations return `Except`.
-/

namespace SupaConsole

/-! ## Character classes of the JavaScript regexes -/

/-- JavaScript `\s`: whitespace and line terminators
(ECMA-262 WhiteSpace + LineTerminator). -/
def isJsSpace (c : Char) : Bool :=
  c = ' ' || c = '\t' || c = '\n' || c = '\x0b' || c = '\x0c' || c = '\r' ||
  c = '\u00a0' || c = '\u1680' ||
  ('\u2000' ≤ c && c ≤ '\u200a') ||
  c = '\u2028' || c = '\u2029' || c = '\u202f' || c = '\u205f' ||
  c = '\u3000' || c = '\ufeff'

/-- JavaScript line terminators; the regex `.` wildcard matches anything else. -/
def isLineTerm (c : Char) : Bool :=
  c = '\n' || c = '\r' || c = '\u2028' || c = '\u2029'

/-- The two quote characters of the `["']?` fragment. -/
def isQuoteCh (c : Char) : Bool :=
  c = '"' || c = '\''

/-! ## Pattern language

The patterns appearing in the source are sequences of these items.  For
them, greedy matching without backtracking coincides with JavaScript
regex semantics because the character classes consumed by `wsStar`,
`optQuote` and the literals that follow them are pairwise disjoint in
every pattern the source builds. -/

inductive RItem where
  | lit (ch : Char)
  | wild
  | wsStar
  | optQuote
deriving DecidableEq, Repr

/-- Match a pattern at the start of the input; on success return the
unconsumed rest of the input. -/
def matchPat : List RItem → List Char → Option (List Char)
  | [], l => some l
  | .lit _ :: _, [] => none
  | .lit ch :: ps, x :: l => if x = ch then matchPat ps l else none
  | .wild :: _, [] => none
  | .wild :: ps, x :: l => if isLineTerm x then none else matchPat ps l
  | .wsStar :: ps, l => matchPat ps (l.dropWhile isJsSpace)
  | .optQuote :: ps, [] => matchPat ps []
  | .optQuote :: ps, x :: l => if isQuoteCh x then matchPat ps l else matchPat ps (x :: l)

/-- Three-valued matcher: `fail` means the match failed at a definite
mismatch inside the input, `cut` means the input ran out (a longer input
might still match), `found r` means success with rest `r`. -/
inductive MRes where
  | fail
  | cut
  | found (rest : List Char)
deriving DecidableEq, Repr

def matchPat3 : List RItem → List Char → MRes
  | [], l => .found l
  | .lit _ :: _, [] => .cut
  | .lit ch :: ps, x :: l => if x = ch then matchPat3 ps l else .fail
  | .wild :: _, [] => .cut
  | .wild :: ps, x :: l => if isLineTerm x then .fail else matchPat3 ps l
  | .wsStar :: ps, l =>
    match l.dropWhile isJsSpace with
    | [] => .cut
    | x :: l2 => matchPat3 ps (x :: l2)
  | .optQuote :: _, [] => .cut
  | .optQuote :: ps, x :: l => if isQuoteCh x then matchPat3 ps l else matchPat3 ps (x :: l)

/-- A definite mismatch inside `s` stays a mismatch however `s` is extended. -/
theorem matchPat3_fail_append :
    ∀ (p : List RItem) (s t : List Char),
      matchPat3 p s = .fail → matchPat p (s ++ t) = none
  | [], s, t, h => by simp [matchPat3] at h
  | .lit ch :: ps, [], t, h => by simp [matchPat3] at h
  | .lit ch :: ps, x :: s, t, h => by
    by_cases hx : x = ch
    · simp only [matchPat3, hx, if_pos rfl] at h
      simpa [matchPat, hx] using matchPat3_fail_append ps s t h
    · simp [matchPat, hx]
  | .wild :: ps, [], t, h => by simp [matchPat3] at h
  | .wild :: ps, x :: s, t, h => by
    by_cases hx : isLineTerm x
    · simp [matchPat, hx]
    · simp only [matchPat3, hx, Bool.false_eq_true, if_neg, if_false] at h
      simpa [matchPat, hx] using matchPat3_fail_append ps s t h
  | .wsStar :: ps, s, t, h => by
    rcases hd : s.dropWhile isJsSpace with _ | ⟨x, s2⟩
    · simp [matchPat3, hd] at h
    · have hne : ¬ (s.dropWhile isJsSpace).isEmpty := by simp [hd]
      have : (s ++ t).dropWhile isJsSpace = s.dropWhile isJsSpace ++ t := by
        rw [List.dropWhile_append, if_neg hne]
      simp only [matchPat3, hd] at h
      simp only [matchPat, this, hd]
      exact matchPat3_fail_append ps (x :: s2) t h
  | .optQuote :: ps, [], t, h => by simp [matchPat3] at h
  | .optQuote :: ps, x :: s, t, h => by
    by_cases hx : isQuoteCh x
    · simp only [matchPat3, hx, if_pos] at h
      simpa [matchPat, hx] using matchPat3_fail_append ps s t h
    · simp only [matchPat3, hx, Bool.false_eq_true, if_neg, if_false] at h
      have := matchPat3_fail_append ps (x :: s) t h
      simpa [matchPat, hx] using this

/-- The rest returned by a successful match is a suffix of the input. -/
theorem matchPat_suffix :
    ∀ (p : List RItem) (l r : List Char), matchPat p l = some r → r <:+ l
  | [], l, r, h => by simp [matchPat] at h; simp [h]
  | .lit ch :: ps, [], r, h => by simp [matchPat] at h
  | .lit ch :: ps, x :: l, r, h => by
    by_cases hx : x = ch
    · simp only [matchPat, hx, if_pos rfl] at h
      exact (matchPat_suffix ps l r h).trans (List.suffix_cons x l)
    · simp [matchPat, hx] at h
  | .wild :: ps, [], r, h => by simp [matchPat] at h
  | .wild :: ps, x :: l, r, h => by
    by_cases hx : isLineTerm x
    · simp [matchPat, hx] at h
    · simp only [matchPat, hx, Bool.false_eq_true, if_neg, if_false] at h
      exact (matchPat_suffix ps l r h).trans (List.suffix_cons x l)
  | .wsStar :: ps, l, r, h => by
    simp only [matchPat] at h
    exact (matchPat_suffix ps _ r h).trans (List.dropWhile_suffix isJsSpace)
  | .optQuote :: ps, [], r, h => by
    simp only [matchPat] at h
    exact matchPat_suffix ps [] r h
  | .optQuote :: ps, x :: l, r, h => by
    by_cases hx : isQuoteCh x
    · simp only [matchPat, hx, if_pos] at h
      exact (matchPat_suffix ps l r h).trans (List.suffix_cons x l)
    · simp only [matchPat, hx, Bool.false_eq_true, if_neg, if_false] at h
      exact matchPat_suffix ps (x :: l) r h

theorem matchPat_length_le (p : List RItem) (l r : List Char)
    (h : matchPat p l = some r) : r.length ≤ l.length :=
  (matchPat_suffix p l r h).length_le

/-- A pattern containing at least one literal always consumes at least one
character. -/
theorem matchPat_length_lt :
    ∀ (p : List RItem), (∃ c, RItem.lit c ∈ p) →
      ∀ (l r : List Char), matchPat p l = some r → r.length < l.length
  | [], hp, l, r, h => by simp at hp
  | .lit ch :: ps, _, [], r, h => by simp [matchPat] at h
  | .lit ch :: ps, _, x :: l, r, h => by
    by_cases hx : x = ch
    · simp only [matchPat, hx, if_pos rfl] at h
      exact Nat.lt_succ_of_le (matchPat_length_le ps l r h)
    · simp [matchPat, hx] at h
  | .wild :: ps, _, [], r, h => by simp [matchPat] at h
  | .wild :: ps, _, x :: l, r, h => by
    by_cases hx : isLineTerm x
    · simp [matchPat, hx] at h
    · simp only [matchPat, hx, Bool.false_eq_true, if_neg, if_false] at h
      exact Nat.lt_succ_of_le (matchPat_length_le ps l r h)
  | .wsStar :: ps, hp, l, r, h => by
    simp only [matchPat] at h
    rcases hp with ⟨c, hc⟩
    simp only [List.mem_cons] at hc
    rcases hc with hc | hc
    · exact absurd hc (by simp)
    · exact lt_of_lt_of_le (matchPat_length_lt ps ⟨c, hc⟩ _ r h)
        (List.dropWhile_suffix isJsSpace).length_le
  | .optQuote :: ps, hp, [], r, h => by
    simp only [matchPat] at h
    rcases hp with ⟨c, hc⟩
    simp only [List.mem_cons] at hc
    rcases hc with hc | hc
    · exact absurd hc (by simp)
    · exact matchPat_length_lt ps ⟨c, hc⟩ [] r h
  | .optQuote :: ps, hp, x :: l, r, h => by
    rcases hp with ⟨c, hc⟩
    simp only [List.mem_cons] at hc
    rcases hc with hc | hc
    · exact absurd hc (by simp)
    by_cases hx : isQuoteCh x
    · simp only [matchPat, hx, if_pos] at h
      exact Nat.lt_succ_of_le (matchPat_length_le ps l r h)
    · simp only [matchPat, hx, Bool.false_eq_true, if_neg, if_false] at h
      exact matchPat_length_lt ps ⟨c, hc⟩ (x :: l) r h

/-! ## The global-replace scanner -/

/-- `scan p rep l` replaces every leftmost, non-overlapping match of `p`
in `l` by `rep`, exactly like JavaScript `String.prototype.replace` with a
global regex.  The guard `hr` is always true for the patterns the source
builds (each contains a literal, hence consumes at least one character);
it only serves to make the recursion well-founded. -/
def scan (p : List RItem) (rep : List Char) : List Char → List Char
  | [] => []
  | x :: l =>
    match matchPat p (x :: l) with
    | some r =>
      if _hr : r.length ≤ l.length then rep ++ scan p rep r
      else x :: scan p rep l
    | none => x :: scan p rep l
termination_by l => l.length
decreasing_by
  all_goals simp only [List.length_cons]
  all_goals omega

theorem scan_nil (p : List RItem) (rep : List Char) : scan p rep [] = [] := by
  rw [scan.eq_def]

theorem scan_cons_none (p : List RItem) (rep : List Char) (x : Char) (l : List Char)
    (h : matchPat p (x :: l) = none) : scan p rep (x :: l) = x :: scan p rep l := by
  rw [scan.eq_def]
  simp [h]

theorem scan_cons_some (p : List RItem) (rep : List Char) (x : Char) (l r : List Char)
    (h : matchPat p (x :: l) = some r) (hr : r.length ≤ l.length) :
    scan p rep (x :: l) = rep ++ scan p rep r := by
  rw [scan.eq_def]
  simp [h, hr]

/-- No suffix of `l` starts a match of `p`. -/
def NoMatch (p : List RItem) (l : List Char) : Prop :=
  ∀ s, s <:+ l → matchPat p s = none

theorem NoMatch.tail {p : List RItem} {x : Char} {l : List Char}
    (h : NoMatch p (x :: l)) : NoMatch p l :=
  fun s hs => h s (hs.trans (List.suffix_cons x l))

theorem NoMatch.of_suffix {p : List RItem} {l s : List Char}
    (h : NoMatch p l) (hs : s <:+ l) : NoMatch p s :=
  fun u hu => h u (hu.trans hs)

/-- On match-free input the scanner is the identity. -/
theorem scan_id (p : List RItem) (rep : List Char) :
    ∀ (l : List Char), NoMatch p l → scan p rep l = l
  | [], _ => scan_nil p rep
  | x :: l, h => by
    rw [scan_cons_none p rep x l (h (x :: l) (List.suffix_refl _))]
    rw [scan_id p rep l h.tail]

/-- `Mix p rep l m` relates an input `l` to any interleaving `m` of kept
characters and replacements that the scanner could produce; `scan`
produces exactly such an interleaving. -/
inductive Mix (p : List RItem) (rep : List Char) : List Char → List Char → Prop
  | nil : Mix p rep [] []
  | keep (x : Char) (l m : List Char) : matchPat p (x :: l) = none →
      Mix p rep l m → Mix p rep (x :: l) (x :: m)
  | repl (l r m : List Char) : matchPat p l = some r → r.length < l.length →
      Mix p rep r m → Mix p rep l (rep ++ m)

theorem scan_mix (p : List RItem) (rep : List Char)
    (hcons : ∀ l r, matchPat p l = some r → r.length < l.length) :
    ∀ (l : List Char), Mix p rep l (scan p rep l)
  | [] => by
    rw [scan_nil]
    exact Mix.nil
  | x :: l => by
    rcases hm : matchPat p (x :: l) with _ | r
    · rw [scan_cons_none p rep x l hm]
      exact Mix.keep x _ _ hm (scan_mix p rep hcons l)
    · have hlt := hcons _ _ hm
      have hr : r.length ≤ l.length := Nat.lt_succ_iff.mp hlt
      rw [scan_cons_some p rep x l r hm hr]
      exact Mix.repl _ r _ hm hlt (scan_mix p rep hcons r)
termination_by l => l.length
decreasing_by
  · exact Nat.lt_succ_self _
  · exact Nat.lt_succ_iff.mpr hr

/-- Patterns of only `wsStar` / `optQuote` items match any input. -/
def totalB : List RItem → Bool
  | [] => true
  | .wsStar :: ps => totalB ps
  | .optQuote :: ps => totalB ps
  | _ => false

theorem totalB_isSome :
    ∀ (p : List RItem), totalB p = true → ∀ (l : List Char), (matchPat p l).isSome
  | [], _, l => by simp [matchPat]
  | .lit ch :: ps, h, l => by simp [totalB] at h
  | .wild :: ps, h, l => by simp [totalB] at h
  | .wsStar :: ps, h, l => by
    simp only [totalB] at h
    simpa [matchPat] using totalB_isSome ps h (l.dropWhile isJsSpace)
  | .optQuote :: ps, h, l => by
    simp only [totalB] at h
    cases l with
    | nil => simpa [matchPat] using totalB_isSome ps h []
    | cons x l =>
      by_cases hx : isQuoteCh x
      · simpa [matchPat, hx] using totalB_isSome ps h l
      · simpa [matchPat, hx] using totalB_isSome ps h (x :: l)

theorem matchPat_lit_head {ch : Char} {ps : List RItem} {l r : List Char}
    (h : matchPat (.lit ch :: ps) l = some r) : ∃ l2, l = ch :: l2 := by
  cases l with
  | nil => simp [matchPat] at h
  | cons x l =>
    by_cases hx : x = ch
    · exact ⟨l, by rw [hx]⟩
    · simp [matchPat, hx] at h

/-- Hypotheses under which replacing matches of `p1` (a pattern whose head
is a non-space, non-quote literal) by `rep` cannot create a match of `p`
anywhere: every nonempty suffix of `rep` definitely fails against `p`, and
every nonempty proper suffix of `p` either definitely fails against `rep`
or matches everything. -/
structure ScanHyps (p p1 : List RItem) (rep : List Char) : Prop where
  hp1 : ∃ c ps, p1 = .lit c :: ps ∧ isJsSpace c = false ∧ isQuoteCh c = false
  hrep : ∃ r0 rr, rep = r0 :: rr ∧ isJsSpace r0 = false ∧ isQuoteCh r0 = false
  hsuf : ∀ q, q <:+ p → q ≠ [] → q ≠ p → matchPat3 q rep = .fail ∨ totalB q = true
  hrtails : ∀ s, s <:+ rep → s ≠ [] → matchPat3 p s = .fail
  hnil : matchPat p [] = none

/-- `Mix` is stable under stripping leading JavaScript whitespace: matches
of `p1` start with a non-space literal and `rep` starts with a non-space
character, so the whitespace prefixes on both sides agree. -/
theorem Mix.dropWhile_ws {p1 : List RItem} {rep : List Char}
    (hp1 : ∃ c ps, p1 = .lit c :: ps ∧ isJsSpace c = false ∧ isQuoteCh c = false)
    (hrep : ∃ r0 rr, rep = r0 :: rr ∧ isJsSpace r0 = false ∧ isQuoteCh r0 = false) :
    ∀ {l m : List Char}, Mix p1 rep l m →
      Mix p1 rep (l.dropWhile isJsSpace) (m.dropWhile isJsSpace) := by
  intro l m hmix
  induction hmix with
  | nil => exact Mix.nil
  | keep x l m hk hmix ih =>
    by_cases hx : isJsSpace x
    · simpa [List.dropWhile_cons, hx] using ih
    · simpa [List.dropWhile_cons, hx] using Mix.keep x l m hk hmix
  | repl l r m hm hlt hmix =>
    rcases hp1 with ⟨c, ps, hps, hcs, hcq⟩
    rcases hrep with ⟨r0, rr, hrr, hr0s, hr0q⟩
    rcases matchPat_lit_head (hps ▸ hm) with ⟨l2, hl2⟩
    subst hl2
    rw [hrr, List.cons_append, List.dropWhile_cons]
    simp only [hr0s, List.dropWhile_cons, hcs]
    rw [← List.cons_append, ← hrr]
    exact Mix.repl _ r _ hm hlt hmix

/-- A suffix of `a ++ b` is a suffix of `b`, or a nonempty suffix of `a`
followed by all of `b`. -/
theorem suffix_append_cases {α : Type} {s a b : List α} (h : s <:+ a ++ b) :
    s <:+ b ∨ ∃ s1, s1 <:+ a ∧ s1 ≠ [] ∧ s = s1 ++ b := by
  rcases h with ⟨t, ht⟩
  rcases List.append_eq_append_iff.mp ht with ⟨a2, ha, hs⟩ | ⟨c2, _, hb⟩
  · rcases a2 with _ | ⟨y, a3⟩
    · left
      simp only [List.nil_append] at hs
      exact hs ▸ List.suffix_refl b
    · right
      exact ⟨y :: a3, ⟨t, ha.symm⟩, by simp, hs⟩
  · left
    exact ⟨c2, hb.symm⟩

/-- Transfer of matches from a scanner output back to its input: if a
suffix pattern `q` of `p` matches somewhere in the rewritten text aligned
with position zero, it also matches at the same position of the original
text.  (Matches falling inside an inserted replacement are impossible by
the `ScanHyps` side conditions.) -/
theorem mix_transfer {p p1 : List RItem} {rep : List Char} (H : ScanHyps p p1 rep) :
    ∀ (q : List RItem), q <:+ p → ∀ {l m rm : List Char}, Mix p1 rep l m →
      matchPat q m = some rm → ∃ rl, matchPat q l = some rl
  | [], _, l, m, rm, _, _ => ⟨l, rfl⟩
  | .lit ch :: q2, hq, l, m, rm, hmix, hsome => by
    have hq2 : q2 <:+ p := (List.suffix_cons (RItem.lit ch) q2).trans hq
    cases hmix with
    | nil => simp [matchPat] at hsome
    | keep x l2 m2 hk hmix2 =>
      by_cases hx : x = ch
      · subst hx
        simp only [matchPat, if_pos rfl] at hsome
        rcases mix_transfer H q2 hq2 hmix2 hsome with ⟨rl, hrl⟩
        exact ⟨rl, by simp [matchPat, hrl]⟩
      · simp [matchPat, hx] at hsome
    | repl l r m2 hm hlt hmix2 =>
      exfalso
      by_cases hqp : RItem.lit ch :: q2 = p
      · rcases H.hrep with ⟨r0, rr, hrr, -, -⟩
        have hfail := H.hrtails rep (List.suffix_refl rep) (by simp [hrr])
        have := matchPat3_fail_append p rep m2 hfail
        rw [hqp] at hsome
        rw [this] at hsome
        exact Option.noConfusion hsome
      · rcases H.hsuf _ hq (by simp) hqp with hfail | htot
        · have := matchPat3_fail_append _ rep m2 hfail
          rw [this] at hsome
          exact Option.noConfusion hsome
        · simp [totalB] at htot
  | .wild :: q2, hq, l, m, rm, hmix, hsome => by
    have hq2 : q2 <:+ p := (List.suffix_cons RItem.wild q2).trans hq
    cases hmix with
    | nil => simp [matchPat] at hsome
    | keep x l2 m2 hk hmix2 =>
      by_cases hx : isLineTerm x
      · simp [matchPat, hx] at hsome
      · simp only [matchPat, hx, Bool.false_eq_true, if_neg, if_false] at hsome
        rcases mix_transfer H q2 hq2 hmix2 hsome with ⟨rl, hrl⟩
        exact ⟨rl, by simp [matchPat, hx, hrl]⟩
    | repl l r m2 hm hlt hmix2 =>
      exfalso
      by_cases hqp : RItem.wild :: q2 = p
      · rcases H.hrep with ⟨r0, rr, hrr, -, -⟩
        have hfail := H.hrtails rep (List.suffix_refl rep) (by simp [hrr])
        have := matchPat3_fail_append p rep m2 hfail
        rw [hqp] at hsome
        rw [this] at hsome
        exact Option.noConfusion hsome
      · rcases H.hsuf _ hq (by simp) hqp with hfail | htot
        · have := matchPat3_fail_append _ rep m2 hfail
          rw [this] at hsome
          exact Option.noConfusion hsome
        · simp [totalB] at htot
  | .wsStar :: q2, hq, l, m, rm, hmix, hsome => by
    have hq2 : q2 <:+ p := (List.suffix_cons RItem.wsStar q2).trans hq
    simp only [matchPat] at hsome
    have hmix2 := Mix.dropWhile_ws H.hp1 H.hrep hmix
    rcases mix_transfer H q2 hq2 hmix2 hsome with ⟨rl, hrl⟩
    exact ⟨rl, by simp [matchPat, hrl]⟩
  | .optQuote :: q2, hq, l, m, rm, hmix, hsome => by
    have hq2 : q2 <:+ p := (List.suffix_cons RItem.optQuote q2).trans hq
    cases hmix with
    | nil => exact ⟨rm, hsome⟩
    | keep x l2 m2 hk hmix2 =>
      by_cases hx : isQuoteCh x
      · simp only [matchPat, hx, if_pos] at hsome
        rcases mix_transfer H q2 hq2 hmix2 hsome with ⟨rl, hrl⟩
        exact ⟨rl, by simp [matchPat, hx, hrl]⟩
      · simp only [matchPat, hx, Bool.false_eq_true, if_neg, if_false] at hsome
        rcases mix_transfer H q2 hq2 (Mix.keep x l2 m2 hk hmix2) hsome with ⟨rl, hrl⟩
        refine ⟨rl, ?_⟩
        simpa [matchPat, hx] using hrl
    | repl l r m2 hm hlt hmix2 =>
      rcases H.hrep with ⟨r0, rr, hrr, -, hr0q⟩
      rw [hrr, List.cons_append] at hsome
      simp only [matchPat, hr0q, Bool.false_eq_true, if_neg, if_false] at hsome
      rw [← List.cons_append, ← hrr] at hsome
      rcases mix_transfer H q2 hq2 (Mix.repl l r m2 hm hlt hmix2) hsome with ⟨rl, hrl⟩
      rcases H.hp1 with ⟨c, ps, hps, -, hcq⟩
      rcases matchPat_lit_head (hps ▸ hm) with ⟨l2, hl2⟩
      refine ⟨rl, ?_⟩
      rw [hl2]
      rw [hl2] at hrl
      simpa [matchPat, hcq] using hrl

/-- The central invariant: scanning with `(p1, rep)` leaves no match of
`p` anywhere in the output, provided `p` either had no match in the input
or is `p1` itself. -/
theorem mix_noMatch {p p1 : List RItem} {rep : List Char} (H : ScanHyps p p1 rep) :
    ∀ {l m : List Char}, Mix p1 rep l m → (p = p1 ∨ NoMatch p l) → NoMatch p m := by
  intro l m hmix
  induction hmix with
  | nil =>
    intro _ s hs
    rw [List.suffix_nil.mp hs]
    exact H.hnil
  | keep x l2 m2 hk hmix2 ih =>
    intro hlm s hs
    rcases List.suffix_cons_iff.mp hs with hs1 | hs2
    · subst hs1
      rcases hm : matchPat p (x :: m2) with _ | rm
      · rfl
      · exfalso
        rcases mix_transfer H p (List.suffix_refl p) (Mix.keep x l2 m2 hk hmix2) hm with
          ⟨rl, hrl⟩
        rcases hlm with hpp | hnm
        · rw [hpp] at hrl
          rw [hk] at hrl
          exact Option.noConfusion hrl
        · rw [hnm (x :: l2) (List.suffix_refl _)] at hrl
          exact Option.noConfusion hrl
    · refine ih ?_ s hs2
      rcases hlm with hpp | hnm
      · exact Or.inl hpp
      · exact Or.inr hnm.tail
  | repl l2 r m2 hm hlt hmix2 ih =>
    intro hlm s hs
    rcases suffix_append_cases hs with hs1 | ⟨s1, hs1, hne, hseq⟩
    · refine ih ?_ s hs1
      rcases hlm with hpp | hnm
      · exact Or.inl hpp
      · exact Or.inr (hnm.of_suffix (matchPat_suffix _ _ _ hm))
    · subst hseq
      exact matchPat3_fail_append p s1 m2 (H.hrtails s1 hs1 hne)

/-- Scanning preserves (or, for the pattern being scanned, establishes)
absence of matches. -/
theorem noMatch_scan {p p1 : List RItem} {rep : List Char} (H : ScanHyps p p1 rep)
    (hcons : ∀ l r, matchPat p1 l = some r → r.length < l.length)
    (l : List Char) (h : p = p1 ∨ NoMatch p l) : NoMatch p (scan p1 rep l) :=
  mix_noMatch H (scan_mix p1 rep hcons l) h

/-! ## Decidable packaging of the side conditions -/

def hasLitB (p : List RItem) : Bool :=
  p.any fun it => match it with | .lit _ => true | _ => false

theorem consuming_of_hasLit (p : List RItem) (h : hasLitB p = true) :
    ∀ l r, matchPat p l = some r → r.length < l.length := by
  have : ∃ c, RItem.lit c ∈ p := by
    rcases List.any_eq_true.mp h with ⟨it, hmem, hit⟩
    cases it with
    | lit c => exact ⟨c, hmem⟩
    | wild => simp at hit
    | wsStar => simp at hit
    | optQuote => simp at hit
  exact matchPat_length_lt p this

def headLitOkB (p : List RItem) : Bool :=
  match p with
  | .lit c :: _ => !isJsSpace c && !isQuoteCh c
  | _ => false

def headChOkB (rep : List Char) : Bool :=
  match rep with
  | r0 :: _ => !isJsSpace r0 && !isQuoteCh r0
  | [] => false

/-- All the `ScanHyps` side conditions as one boolean check. -/
def scanHypsB (p p1 : List RItem) (rep : List Char) : Bool :=
  headLitOkB p1 && headChOkB rep &&
  (p.tails.all fun q =>
    decide (q = []) || decide (q = p) || decide (matchPat3 q rep = .fail) || totalB q) &&
  (rep.tails.all fun s => decide (s = []) || decide (matchPat3 p s = .fail)) &&
  decide (matchPat p [] = none)

theorem scanHyps_of_b (p p1 : List RItem) (rep : List Char)
    (h : scanHypsB p p1 rep = true) : ScanHyps p p1 rep := by
  simp only [scanHypsB, Bool.and_eq_true] at h
  obtain ⟨⟨⟨⟨h1, h2⟩, h3⟩, h4⟩, h5⟩ := h
  refine ⟨?_, ?_, ?_, ?_, of_decide_eq_true h5⟩
  · rcases p1 with _ | ⟨it, ps⟩
    · simp [headLitOkB] at h1
    · cases it with
      | lit c =>
        simp only [headLitOkB, Bool.and_eq_true, Bool.not_eq_true'] at h1
        exact ⟨c, ps, rfl, h1.1, h1.2⟩
      | wild => simp [headLitOkB] at h1
      | wsStar => simp [headLitOkB] at h1
      | optQuote => simp [headLitOkB] at h1
  · rcases rep with _ | ⟨r0, rr⟩
    · simp [headChOkB] at h2
    · simp only [headChOkB, Bool.and_eq_true, Bool.not_eq_true'] at h2
      exact ⟨r0, rr, rfl, h2.1, h2.2⟩
  · intro q hq hne hnep
    have := List.all_eq_true.mp h3 q ((List.mem_tails q p).mpr hq)
    simp only [Bool.or_eq_true, decide_eq_true_eq] at this
    rcases this with ((he | hp) | hf) | ht
    · exact absurd he hne
    · exact absurd hp hnep
    · exact Or.inl hf
    · exact Or.inr ht
  · intro s hs hne
    have := List.all_eq_true.mp h4 s ((List.mem_tails s rep).mpr hs)
    simp only [Bool.or_eq_true, decide_eq_true_eq] at this
    rcases this with he | hf
    · exact absurd he hne
    · exact hf

/-- Decidable check for `NoMatch`. -/
def noMatchB (p : List RItem) (l : List Char) : Bool :=
  l.tails.all fun s => (matchPat p s).isNone

theorem noMatch_of_b {p : List RItem} {l : List Char} (h : noMatchB p l = true) :
    NoMatch p l := by
  intro s hs
  have := List.all_eq_true.mp h s ((List.mem_tails s l).mpr hs)
  exact Option.isNone_iff_eq_none.mp this

/-! ## Sequences of rewrites -/

/-- Apply a list of pattern/replacement rewrites in order. -/
def applyPairs (prs : List (List RItem × List Char)) (content : List Char) : List Char :=
  prs.foldl (fun acc pr => scan pr.1 pr.2 acc) content

theorem applyPairs_preserve (p : List RItem) :
    ∀ (prs : List (List RItem × List Char)) (y : List Char),
      (∀ b ∈ prs, ScanHyps p b.1 b.2) →
      (∀ b ∈ prs, hasLitB b.1 = true) →
      NoMatch p y → NoMatch p (applyPairs prs y)
  | [], _, _, _, hnm => hnm
  | b :: rest, y, hsh, hlit, hnm => by
    simp only [applyPairs, List.foldl_cons]
    have h1 : NoMatch p (scan b.1 b.2 y) :=
      noMatch_scan (hsh b (by simp)) (consuming_of_hasLit b.1 (hlit b (by simp))) y
        (Or.inr hnm)
    exact applyPairs_preserve p rest (scan b.1 b.2 y)
      (fun c hc => hsh c (List.mem_cons_of_mem b hc))
      (fun c hc => hlit c (List.mem_cons_of_mem b hc)) h1

theorem applyPairs_noMatch :
    ∀ (prs : List (List RItem × List Char)) (x : List Char),
      (∀ a ∈ prs, ∀ b ∈ prs, ScanHyps a.1 b.1 b.2) →
      (∀ a ∈ prs, hasLitB a.1 = true) →
      ∀ a ∈ prs, NoMatch a.1 (applyPairs prs x)
  | [], _, _, _, a, ha => absurd ha (by simp)
  | b :: rest, x, htab, hlit, a, ha => by
    simp only [applyPairs, List.foldl_cons]
    rcases List.mem_cons.mp ha with rfl | ha2
    · have h1 : NoMatch a.1 (scan a.1 a.2 x) :=
        noMatch_scan (htab a ha a ha) (consuming_of_hasLit a.1 (hlit a ha)) x (Or.inl rfl)
      exact applyPairs_preserve a.1 rest _
        (fun c hc => htab a ha c (List.mem_cons_of_mem a hc))
        (fun c hc => hlit c (List.mem_cons_of_mem a hc)) h1
    · exact applyPairs_noMatch rest (scan b.1 b.2 x)
        (fun u hu v hv =>
          htab u (List.mem_cons_of_mem b hu) v (List.mem_cons_of_mem b hv))
        (fun u hu => hlit u (List.mem_cons_of_mem b hu)) a ha2

theorem applyPairs_id :
    ∀ (prs : List (List RItem × List Char)) (y : List Char),
      (∀ a ∈ prs, NoMatch a.1 y) → applyPairs prs y = y
  | [], _, _ => rfl
  | b :: rest, y, h => by
    simp only [applyPairs, List.foldl_cons]
    rw [scan_id b.1 b.2 y (h b (by simp))]
    exact applyPairs_id rest y (fun a ha => h a (List.mem_cons_of_mem b ha))

/-- Idempotence of a rewrite sequence whose pairs jointly satisfy the
`ScanHyps` table. -/
theorem applyPairs_idem (prs : List (List RItem × List Char)) (x : List Char)
    (htab : ∀ a ∈ prs, ∀ b ∈ prs, ScanHyps a.1 b.1 b.2)
    (hlit : ∀ a ∈ prs, hasLitB a.1 = true) :
    applyPairs prs (applyPairs prs x) = applyPairs prs x :=
  applyPairs_id prs _ (fun a ha => applyPairs_noMatch prs x htab hlit a ha)

/-! ## Decimal notation (JavaScript number-to-string on natural numbers) -/

def natToDecAux : Nat → Nat → List Char
  | 0, _ => []
  | fuel + 1, n =>
    if n < 10 then [Nat.digitChar n]
    else natToDecAux fuel (n / 10) ++ [Nat.digitChar (n % 10)]

/-- Decimal digits of `n`, as produced by JavaScript template interpolation
of a non-negative integer. -/
def natToDec (n : Nat) : List Char :=
  natToDecAux (n + 1) n

/-! ## Compose template patcher: port-variable injection

`project.ts`, `injectPortVar` / `patchComposePorts`:

    const pattern = new RegExp(`-\\s*["']?${hostPort}:${containerPort}["']?`, 'g')
    const replacement = '- ' + '$' + '{' + varName + ':-' + hostPort + '}' + ':' + containerPort
    return content.replace(pattern, replacement)
-/

def litsOf (cs : List Char) : List RItem := cs.map RItem.lit

def lits (s : String) : List RItem := litsOf s.data

/-- The regex `-\s*["']?HOST:CONTAINER["']?` of `injectPortVar`. -/
def portPattern (hostPort containerPort : Nat) : List RItem :=
  [RItem.lit '-', RItem.wsStar, RItem.optQuote] ++ litsOf (natToDec hostPort) ++
    [RItem.lit ':'] ++ litsOf (natToDec containerPort) ++ [RItem.optQuote]

/-- The replacement text `- ${VAR:-HOST}:CONTAINER` of `injectPortVar`. -/
def portReplacement (hostPort containerPort : Nat) (varName : String) : List Char :=
  ("- $\x7b" ++ varName ++ ":-").data ++ natToDec hostPort ++
    ("\x7d:").data ++ natToDec containerPort

def injectPortVar (content : List Char) (hostPort containerPort : Nat)
    (varName : String) : List Char :=
  scan (portPattern hostPort containerPort)
    (portReplacement hostPort containerPort varName) content

/-- The six port rewrites of `patchComposePorts`, in source order. -/
def patchComposePortsContent (content : List Char) : List Char :=
  let c1 := injectPortVar content 8000 8000 "KONG_HTTP_PORT"
  let c2 := injectPortVar c1 8443 8443 "KONG_HTTPS_PORT"
  let c3 := injectPortVar c2 3000 3000 "STUDIO_PORT"
  let c4 := injectPortVar c3 4000 4000 "ANALYTICS_PORT"
  let c5 := injectPortVar c4 5432 5432 "POSTGRES_PORT"
  injectPortVar c5 6543 6543 "POOLER_PROXY_PORT_TRANSACTION"

/-- `patchComposePorts` returns the new content together with the flag
`content !== before` deciding whether the file is written back. -/
def patchComposePorts (content : List Char) : List Char × Bool :=
  let c2 := patchComposePortsContent content
  (c2, decide (c2 ≠ content))

/-- The pattern/replacement pairs of `patchComposePorts` as a list. -/
def composePortPairs : List (List RItem × List Char) :=
  [(portPattern 8000 8000, portReplacement 8000 8000 "KONG_HTTP_PORT"),
   (portPattern 8443 8443, portReplacement 8443 8443 "KONG_HTTPS_PORT"),
   (portPattern 3000 3000, portReplacement 3000 3000 "STUDIO_PORT"),
   (portPattern 4000 4000, portReplacement 4000 4000 "ANALYTICS_PORT"),
   (portPattern 5432 5432, portReplacement 5432 5432 "POSTGRES_PORT"),
   (portPattern 6543 6543, portReplacement 6543 6543 "POOLER_PROXY_PORT_TRANSACTION")]

theorem patchComposePortsContent_eq (content : List Char) :
    patchComposePortsContent content = applyPairs composePortPairs content := rfl

theorem composePortPairs_table :
    ∀ a ∈ composePortPairs, ∀ b ∈ composePortPairs, scanHypsB a.1 b.1 b.2 = true := by
  decide

theorem composePortPairs_lit : ∀ a ∈ composePortPairs, hasLitB a.1 = true := by
  decide

/-- C2: for every compose document text, applying the port-variable
injection (`patchComposePorts`) a second time to the output of a first
application leaves the text unchanged, and since the file is written back
only when the content changed, the second application performs no write:
patch(patch(x)) = patch(x). -/
theorem patchComposePorts_idempotent (content : List Char) :
    patchComposePortsContent (patchComposePortsContent content) =
      patchComposePortsContent content ∧
    (patchComposePorts (patchComposePorts content).1).2 = false := by
  have htab : ∀ a ∈ composePortPairs, ∀ b ∈ composePortPairs, ScanHyps a.1 b.1 b.2 :=
    fun a ha b hb => scanHyps_of_b a.1 b.1 b.2 (composePortPairs_table a ha b hb)
  have hidem := applyPairs_idem composePortPairs content htab composePortPairs_lit
  have h1 : patchComposePortsContent (patchComposePortsContent content) =
      patchComposePortsContent content := by
    simp only [patchComposePortsContent_eq]
    exact hidem
  refine ⟨h1, ?_⟩
  show decide (patchComposePortsContent (patchComposePortsContent content) ≠
    patchComposePortsContent content) = false
  rw [h1]
  exact decide_eq_false (fun hne => hne rfl)

/-! ## cloudflared.ts: the network exposure manager

DNS and ingress state are modelled explicitly; the Cloudflare HTTP API and
the local daemon commands (`validate`, reload) are external effects: API
calls are modelled as succeeding (a non-2xx response is a fatal thrown
error in the source and aborts the operation), validation/reload do not
change the modelled state. -/

/-- A CNAME record of the zone.  `id` is the provider-assigned record id. -/
structure DnsRecord where
  id : Nat
  name : List Char
  content : List Char
  proxied : Bool
deriving DecidableEq, Repr

/-- One entry of the `ingress` list of the tunnel configuration document:
either `{hostname, service}` or the catch-all `{service}`. -/
structure IngressRule where
  hostname : Option (List Char)
  service : List Char
deriving DecidableEq, Repr

/-- External state touched by the exposure manager: the zone's CNAME
records (with a fresh-id counter for creations) and the tunnel
configuration document. -/
structure ExpoState where
  dns : List DnsRecord
  nextId : Nat
  tunnel : List Char
  ingress : List IngressRule
deriving Repr

/-- Environment variables read by cloudflared.ts; `[]` models an unset or
empty (hence falsy) variable, `none` models an unset optional one. -/
structure ExpoEnv where
  baseDomain : List Char
  tunnelUuid : List Char
  cfApiToken : List Char
  cfZoneId : List Char
  internalProxyUrl : Option (List Char)
deriving Repr

/-- `sanitizeSlug`: `input.toLowerCase().replace(/[^a-z0-9-]/g, '-')`.
`Char.toLower` models `toLowerCase` on the ASCII range; any character
whose lowercase form is outside `[a-z0-9-]` is replaced by `-` either
way. -/
def isSlugKeep (c : Char) : Bool :=
  ('a' ≤ c && c ≤ 'z') || ('0' ≤ c && c ≤ '9') || c = '-'

def sanitizeSlug (input : List Char) : List Char :=
  (input.map Char.toLower).map fun c => if isSlugKeep c then c else '-'

/-- JavaScript `String.prototype.trim`. -/
def jsTrim (l : List Char) : List Char :=
  ((l.dropWhile isJsSpace).reverse.dropWhile isJsSpace).reverse

/-- The hostname computed by `ensureProjectPublicExposure`:
`sanitizeSlug(args.projectSlug || args.projectName) + "." + BASE_DOMAIN`. -/
def computeHostname (projectName projectSlug baseDomain : List Char) : List Char :=
  sanitizeSlug (if projectSlug = [] then projectName else projectSlug) ++ '.' :: baseDomain

/-- `ensureCloudflareCname`: list records by name, update the first if its
target or proxied flag differs, create one if none exists. -/
def ensureCloudflareCname (hostname target : List Char) (st : ExpoState) : ExpoState :=
  match st.dns.filter (fun r => decide (r.name = hostname)) with
  | existing :: _ =>
    if existing.content ≠ target ∨ existing.proxied ≠ true then
      { st with dns := st.dns.map fun r =>
          if r.id = existing.id then
            { r with name := hostname, content := target, proxied := true }
          else r }
    else st
  | [] =>
    { st with dns := st.dns ++ [⟨st.nextId, hostname, target, true⟩],
              nextId := st.nextId + 1 }

/-- `deleteCloudflareCname`: delete the first record listed for the
hostname; no-op when none exists. -/
def deleteCloudflareCname (hostname : List Char) (st : ExpoState) : ExpoState :=
  match st.dns.filter (fun r => decide (r.name = hostname)) with
  | existing :: _ => { st with dns := st.dns.filter fun r => decide (r.id ≠ existing.id) }
  | [] => st

/-- The catch-all service string `http_status:404`. -/
def catchAllSvc : List Char := "http_status:404".data

def catchAllRule : IngressRule := ⟨none, catchAllSvc⟩

/-- `ensureCatchAll404`: drop every catch-all entry, then append exactly
one at the end. -/
def ensureCatchAll404 (ingress : List IngressRule) : List IngressRule :=
  ingress.filter (fun r => decide (r.service ≠ catchAllSvc)) ++ [catchAllRule]

/-- The rule-removal predicate of `ensureTunnelIngress` and
`removeTunnelIngress`: `!(r && r.hostname && String(r.hostname).toLowerCase()
=== hostname.toLowerCase())`; an empty hostname string is falsy and is
kept. -/
def keepsRule (hostname : List Char) (r : IngressRule) : Bool :=
  match r.hostname with
  | some h => !(decide (h ≠ []) && decide (h.map Char.toLower = hostname.map Char.toLower))
  | none => true

/-- `ensureTunnelIngress`: set the tunnel id, drop any rule of the same
hostname (case-insensitively), push the new rule, re-normalize the
catch-all, write the file, validate and reload the daemon. -/
def ensureTunnelIngress (hostname serviceUrl tunnelUuid : List Char)
    (st : ExpoState) : ExpoState :=
  let filtered := st.ingress.filter (keepsRule hostname)
  { st with tunnel := tunnelUuid,
            ingress := ensureCatchAll404 (filtered ++ [⟨some hostname, serviceUrl⟩]) }

/-- `removeTunnelIngress`: drop the hostname's rules and re-normalize the
catch-all (the modelled ingress is always a list, so the `Array.isArray`
guard always passes). -/
def removeTunnelIngress (hostname : List Char) (st : ExpoState) : ExpoState :=
  { st with ingress := ensureCatchAll404 (st.ingress.filter (keepsRule hostname)) }

/-- Truthiness of `s && s.trim().length > 0` for an optional string. -/
def truthyTrim : Option (List Char) → Bool
  | some s => decide (s ≠ []) && decide (jsTrim s ≠ [])
  | none => false

def cannotDetermineMsg : List Char :=
  "Cannot determine service URL: provide internalUrl or port".data

/-- The service-URL determination of `ensureProjectPublicExposure`:
explicit internalUrl argument, else the configured reverse-proxy URL,
else `http://127.0.0.1:<port>` when `args.port` is truthy (a port of 0 is
falsy), else a thrown error. -/
def determineServiceUrl (env : ExpoEnv) (internalUrl : Option (List Char))
    (port : Option Nat) : Except (List Char) (List Char) :=
  if truthyTrim internalUrl then .ok (internalUrl.getD [])
  else if truthyTrim env.internalProxyUrl then .ok (env.internalProxyUrl.getD [])
  else
    match port with
    | some p => if p ≠ 0 then .ok ("http://127.0.0.1:".data ++ natToDec p) else .error cannotDetermineMsg
    | none => .error cannotDetermineMsg

structure EnsureExposureArgs where
  projectName : List Char
  projectSlug : List Char
  port : Option Nat
  internalUrl : Option (List Char)
deriving Repr

def missingEnvMsg (key : String) : List Char :=
  ("Missing required environment variable: " ++ key).data

/-- `ensureProjectPublicExposure`: returns `(hostname, publicUrl)` and the
new external state, or the thrown error message. -/
def ensureProjectPublicExposure (env : ExpoEnv) (args : EnsureExposureArgs)
    (st : ExpoState) : Except (List Char) ((List Char × List Char) × ExpoState) :=
  if env.baseDomain = [] then .error (missingEnvMsg "BASE_DOMAIN")
  else if env.tunnelUuid = [] then .error (missingEnvMsg "CF_TUNNEL_UUID")
  else
    let hostname := computeHostname args.projectName args.projectSlug env.baseDomain
    match determineServiceUrl env args.internalUrl args.port with
    | .error e => .error e
    | .ok serviceUrl =>
      if env.cfApiToken = [] then .error (missingEnvMsg "CF_API_TOKEN")
      else if env.cfZoneId = [] then .error (missingEnvMsg "CF_ZONE_ID")
      else
        let tunnelDnsTarget := env.tunnelUuid ++ ".cfargotunnel.com".data
        let st1 := ensureCloudflareCname hostname tunnelDnsTarget st
        let st2 := ensureTunnelIngress hostname serviceUrl env.tunnelUuid st1
        .ok ((hostname, "https://".data ++ hostname), st2)

/-- `cleanupProjectExposure`: after the env checks (whose failure throws
out of the function), best-effort DNS delete then ingress removal.
`dnsDeleteOk` is the outcome of the Cloudflare API delete call and
`ingressRemoveOk` the outcome of the ingress-file rewrite / daemon
reload; each of the two steps sits in its own try/catch, so a failure
(a thrown API or daemon error, or a missing API credential) is caught,
leaves the state of that step unchanged, and does not prevent the other
step. -/
def cleanupProjectExposure (env : ExpoEnv) (dnsDeleteOk ingressRemoveOk : Bool)
    (projectSlug projectName : Option (List Char))
    (st : ExpoState) : Except (List Char) ExpoState :=
  if env.baseDomain = [] then .error (missingEnvMsg "BASE_DOMAIN")
  else if env.tunnelUuid = [] then .error (missingEnvMsg "CF_TUNNEL_UUID")
  else
    match (match projectSlug with
           | some s => if s = [] then projectName else some s
           | none => projectName) with
    | none => .error "cleanupProjectExposure requires projectSlug or projectName".data
    | some slugOrName =>
      if slugOrName = [] then .error "cleanupProjectExposure requires projectSlug or projectName".data
      else
        let hostname := sanitizeSlug slugOrName ++ '.' :: env.baseDomain
        let st1 := if dnsDeleteOk then
            (if env.cfApiToken ≠ [] ∧ env.cfZoneId ≠ [] then
              deleteCloudflareCname hostname st
            else st)
          else st
        .ok (if ingressRemoveOk then removeTunnelIngress hostname st1 else st1)

/-! ## Counting helpers for the exposure invariants -/

def dnsCountFor (hostname : List Char) (dns : List DnsRecord) : Nat :=
  dns.countP fun r => decide (r.name = hostname)

def ingressCountFor (hostname : List Char) (ing : List IngressRule) : Nat :=
  ing.countP fun r => decide (r.hostname = some hostname)

def isCatchAll (r : IngressRule) : Bool :=
  decide (r.service = catchAllSvc)

/-- The document ends with exactly one catch-all rule. -/
def EndsWithOneCatchAll (ing : List IngressRule) : Prop :=
  ∃ pre, ing = pre ++ [catchAllRule] ∧ ∀ r ∈ pre, isCatchAll r = false

/-- C9: hostname sanitization lower-cases its input and replaces every
character outside `[a-z0-9-]` by `-`, so the result contains only
lowercase letters, digits and hyphens; `"My Proj_2!"` becomes
`"my-proj-2-"`; and the canonical hostname returned by
`ensureProjectPublicExposure` is the sanitized slug concatenated with `.`
and the base domain. -/
theorem sanitizeSlug_spec :
    (∀ input : List Char, ∀ c ∈ sanitizeSlug input, isSlugKeep c = true) ∧
    sanitizeSlug "My Proj_2!".data = "my-proj-2-".data ∧
    ∀ (env : ExpoEnv) (args : EnsureExposureArgs) (st : ExpoState)
      (r : (List Char × List Char) × ExpoState),
      ensureProjectPublicExposure env args st = .ok r →
      r.1.1 = sanitizeSlug (if args.projectSlug = [] then args.projectName
        else args.projectSlug) ++ '.' :: env.baseDomain := by
  refine ⟨?_, by decide, ?_⟩
  · intro input c hc
    simp only [sanitizeSlug, List.map_map, List.mem_map, Function.comp] at hc
    obtain ⟨a, -, rfl⟩ := hc
    by_cases h : isSlugKeep (Char.toLower a) = true
    · simp [h]
    · simp only [Bool.not_eq_true] at h
      simp only [h, Bool.false_eq_true, if_false]
      decide
  · intro env args st r h
    unfold ensureProjectPublicExposure at h
    split at h
    · exact absurd h (by simp)
    split at h
    · exact absurd h (by simp)
    split at h
    · exact absurd h (by simp)
    split at h
    · exact absurd h (by simp)
    split at h
    · exact absurd h (by simp)
    rename_i heq
    rw [Except.ok.injEq] at h
    subst h
    rfl

def portTruthy : Option Nat → Bool
  | some p => decide (p ≠ 0)
  | none => false

/-- C7: the internal service target is determined with precedence explicit
internal URL > configured reverse-proxy URL > `http://127.0.0.1:<port>`,
and when none of the three is available the exposure operation fails with
the cannot-determine error. -/
theorem determineServiceUrl_precedence (env : ExpoEnv) (iu : Option (List Char))
    (port : Option Nat) :
    (truthyTrim iu = true → determineServiceUrl env iu port = .ok (iu.getD [])) ∧
    (truthyTrim iu = false → truthyTrim env.internalProxyUrl = true →
      determineServiceUrl env iu port = .ok (env.internalProxyUrl.getD [])) ∧
    (truthyTrim iu = false → truthyTrim env.internalProxyUrl = false →
      ∀ p, port = some p → p ≠ 0 →
      determineServiceUrl env iu port = .ok ("http://127.0.0.1:".data ++ natToDec p)) ∧
    (truthyTrim iu = false → truthyTrim env.internalProxyUrl = false →
      portTruthy port = false →
      determineServiceUrl env iu port = .error cannotDetermineMsg) ∧
    (truthyTrim iu = false → truthyTrim env.internalProxyUrl = false →
      portTruthy port = false →
      ∀ (args : EnsureExposureArgs) (st : ExpoState),
        args.internalUrl = iu → args.port = port →
        env.baseDomain ≠ [] → env.tunnelUuid ≠ [] →
        ensureProjectPublicExposure env args st = .error cannotDetermineMsg) := by
  refine ⟨?_, ?_, ?_, ?_, ?_⟩
  · intro h1
    simp [determineServiceUrl, h1]
  · intro h1 h2
    simp [determineServiceUrl, h1, h2]
  · intro h1 h2 p hp hp0
    simp [determineServiceUrl, h1, h2, hp, hp0]
  · intro h1 h2 h3
    rcases port with _ | p
    · simp [determineServiceUrl, h1, h2]
    · simp only [portTruthy, decide_eq_false_iff_not, not_not] at h3
      simp [determineServiceUrl, h1, h2, h3]
  · intro h1 h2 h3 args st hiu hport hbd htu
    have h4 : determineServiceUrl env args.internalUrl args.port = .error cannotDetermineMsg := by
      rw [hiu, hport]
      rcases port with _ | p
      · simp [determineServiceUrl, h1, h2]
      · simp only [portTruthy, decide_eq_false_iff_not, not_not] at h3
        simp [determineServiceUrl, h1, h2, h3]
    unfold ensureProjectPublicExposure
    simp [hbd, htu, h4]

/-- C10: with no explicit internal URL, no configured reverse-proxy URL
and a port equal to 0, the port truthiness test fails, so
`ensureProjectPublicExposure` throws the cannot-determine error — exactly
as when the port is absent. -/
theorem ensureProjectPublicExposure_port_zero (env : ExpoEnv) (st : ExpoState)
    (name slug : List Char)
    (hbd : env.baseDomain ≠ []) (htu : env.tunnelUuid ≠ [])
    (hpx : truthyTrim env.internalProxyUrl = false) :
    ensureProjectPublicExposure env ⟨name, slug, some 0, none⟩ st =
      .error cannotDetermineMsg ∧
    ensureProjectPublicExposure env ⟨name, slug, some 0, none⟩ st =
      ensureProjectPublicExposure env ⟨name, slug, none, none⟩ st := by
  have h0 : truthyTrim none = false := rfl
  unfold ensureProjectPublicExposure determineServiceUrl
  simp [hbd, htu, hpx, h0]

def envNoProxy : ExpoEnv := ⟨"example.com".data, "tun".data, "tok".data, "zone".data, none⟩

def envWithProxy : ExpoEnv :=
  ⟨"example.com".data, "tun".data, "tok".data, "zone".data, some "http://proxy:9".data⟩

def emptyExpoState : ExpoState := ⟨[], 0, [], []⟩

theorem determineServiceUrl_precedence_witness :
    determineServiceUrl envWithProxy (some "http://a".data) (some 7) = .ok "http://a".data ∧
    determineServiceUrl envWithProxy none (some 7) = .ok "http://proxy:9".data ∧
    determineServiceUrl envNoProxy none (some 7) =
      .ok ("http://127.0.0.1:".data ++ natToDec 7) ∧
    determineServiceUrl envNoProxy none none = .error cannotDetermineMsg ∧
    ensureProjectPublicExposure envNoProxy ⟨"p".data, "p".data, none, none⟩ emptyExpoState =
      .error cannotDetermineMsg := by
  refine ⟨?_, ?_, ?_, ?_, ?_⟩
  · exact (determineServiceUrl_precedence envWithProxy _ _).1 (by decide)
  · exact (determineServiceUrl_precedence envWithProxy _ _).2.1 (by decide) (by decide)
  · exact (determineServiceUrl_precedence envNoProxy _ _).2.2.1 (by decide) (by decide)
      7 rfl (by decide)
  · exact (determineServiceUrl_precedence envNoProxy _ _).2.2.2.1 (by decide) (by decide)
      (by decide)
  · exact (determineServiceUrl_precedence envNoProxy _ _).2.2.2.2 (by decide) (by decide)
      (by decide) _ emptyExpoState rfl rfl (by decide) (by decide)

theorem ensureProjectPublicExposure_port_zero_witness :
    ensureProjectPublicExposure envNoProxy ⟨"n".data, "s".data, some 0, none⟩ emptyExpoState =
      .error cannotDetermineMsg := by
  exact (ensureProjectPublicExposure_port_zero envNoProxy emptyExpoState "n".data "s".data
    (by decide) (by decide) (by decide)).1

/-! ## Exposure invariants (C1) -/

theorem ensureCatchAll404_ends (ing : List IngressRule) :
    EndsWithOneCatchAll (ensureCatchAll404 ing) := by
  refine ⟨ing.filter (fun r => decide (r.service ≠ catchAllSvc)), rfl, ?_⟩
  intro r hr
  have := List.of_mem_filter hr
  simp only [decide_eq_true_eq] at this
  simp [isCatchAll, this]

theorem keepsRule_self (hostname : List Char) (hne : hostname ≠ []) (sv : List Char) :
    keepsRule hostname ⟨some hostname, sv⟩ = false := by
  simp [keepsRule, hne]

theorem countP_filter_zero {α : Type} (l : List α) (p q : α → Bool)
    (h : ∀ a, p a = true → q a = false) : (l.filter q).countP p = 0 := by
  rw [List.countP_eq_zero]
  intro a ha
  have hq := List.of_mem_filter ha
  intro hp
  rw [h a hp] at hq
  exact Bool.noConfusion hq

/-- After `ensureTunnelIngress`, exactly one ingress rule carries the
hostname — provided the pushed service is not the catch-all sentinel,
which `ensureCatchAll404` would strip. -/
theorem ingressCount_ensureTunnelIngress (hostname serviceUrl tunnelUuid : List Char)
    (st : ExpoState) (hne : hostname ≠ [])
    (hsv : serviceUrl ≠ catchAllSvc) :
    ingressCountFor hostname (ensureTunnelIngress hostname serviceUrl tunnelUuid st).ingress
      = 1 := by
  unfold ensureTunnelIngress ensureCatchAll404 ingressCountFor
  simp only []
  rw [List.filter_append, List.countP_append, List.countP_append]
  have h1 : List.countP (fun r => decide (r.hostname = some hostname))
      ((st.ingress.filter (keepsRule hostname)).filter
        (fun r => decide (r.service ≠ catchAllSvc))) = 0 := by
    rw [List.countP_eq_zero]
    intro r hr hp
    have hr2 := List.of_mem_filter (List.mem_of_mem_filter hr)
    simp only [decide_eq_true_eq] at hp
    have := keepsRule_self hostname hne r.service
    have hr3 : keepsRule hostname r = false := by
      have : r = ⟨some hostname, r.service⟩ := by
        cases r
        simp_all
      rw [this]
      exact keepsRule_self hostname hne _
    rw [hr3] at hr2
    exact Bool.noConfusion hr2
  have h2 : List.countP (fun r => decide (r.hostname = some hostname))
      (List.filter (fun r => decide (r.service ≠ catchAllSvc))
        [(⟨some hostname, serviceUrl⟩ : IngressRule)]) = 1 := by
    simp [List.filter, hsv]
  have h3 : List.countP (fun r => decide (r.hostname = some hostname)) [catchAllRule] = 0 := by
    simp [catchAllRule]
  omega

theorem ends_ensureTunnelIngress (hostname serviceUrl tunnelUuid : List Char)
    (st : ExpoState) :
    EndsWithOneCatchAll (ensureTunnelIngress hostname serviceUrl tunnelUuid st).ingress :=
  ensureCatchAll404_ends _

/-- Well-formedness of the DNS zone model: record ids are distinct and
below the fresh-id counter. -/
def DnsInv (st : ExpoState) : Prop :=
  (st.dns.map DnsRecord.id).Nodup ∧ ∀ r ∈ st.dns, r.id < st.nextId

theorem countP_congr_mem {α : Type} (l : List α) (p q : α → Bool)
    (h : ∀ a ∈ l, p a = q a) : l.countP p = l.countP q := by
  induction l with
  | nil => rfl
  | cons a t ih =>
    rw [List.countP_cons, List.countP_cons, h a (by simp),
      ih (fun b hb => h b (List.mem_cons_of_mem a hb))]

theorem nodup_map_inj {α β : Type} (l : List α) (f : α → β)
    (h : (l.map f).Nodup) :
    ∀ x ∈ l, ∀ y ∈ l, f x = f y → x = y := by
  induction l with
  | nil => intro x hx; simp at hx
  | cons a t ih =>
    simp only [List.map_cons, List.nodup_cons] at h
    intro x hx y hy hf
    rcases List.mem_cons.mp hx with rfl | hx2
    · rcases List.mem_cons.mp hy with rfl | hy2
      · rfl
      · exact absurd (List.mem_map.mpr ⟨y, hy2, hf.symm⟩) h.1
    · rcases List.mem_cons.mp hy with rfl | hy2
      · exact absurd (List.mem_map.mpr ⟨x, hx2, hf⟩) h.1
      · exact ih h.2 x hx2 y hy2 hf

theorem map_congr_mem {α β : Type} (l : List α) (f g : α → β)
    (h : ∀ a ∈ l, f a = g a) : l.map f = l.map g := by
  induction l with
  | nil => rfl
  | cons a t ih =>
    rw [List.map_cons, List.map_cons, h a (by simp),
      ih (fun b hb => h b (List.mem_cons_of_mem a hb))]

/-- `ensureCloudflareCname` leaves exactly one CNAME record for the
hostname, starting from a zone respecting the singleton-per-hostname
invariant of the data model, and preserves zone well-formedness; it does
not touch the ingress document. -/
theorem ensureCloudflareCname_spec (hostname target : List Char) (st : ExpoState)
    (hinv : DnsInv st) (hcnt : dnsCountFor hostname st.dns ≤ 1) :
    dnsCountFor hostname (ensureCloudflareCname hostname target st).dns = 1 ∧
    DnsInv (ensureCloudflareCname hostname target st) ∧
    (ensureCloudflareCname hostname target st).ingress = st.ingress := by
  obtain ⟨hnodup, hbound⟩ := hinv
  unfold ensureCloudflareCname
  split
  case h_2 hf =>
    refine ⟨?_, ⟨?_, ?_⟩, rfl⟩
    · show (st.dns ++ [({ id := st.nextId, name := hostname, content := target, proxied := true } : DnsRecord)]).countP (fun r => decide (r.name = hostname)) = 1
      rw [List.countP_append]
      have h0 : st.dns.countP (fun r => decide (r.name = hostname)) = 0 := by
        rw [List.countP_eq_length_filter, hf]
        rfl
      simp [h0]
    · show ((st.dns ++ [({ id := st.nextId, name := hostname, content := target, proxied := true } : DnsRecord)]).map DnsRecord.id).Nodup
      rw [List.map_append, List.nodup_append]
      refine ⟨hnodup, List.nodup_singleton _, ?_⟩
      intro a ha hb
      simp only [List.map_cons, List.map_nil, List.mem_singleton] at hb
      subst hb
      rcases List.mem_map.mp ha with ⟨r, hr, hid⟩
      exact absurd hid (Nat.ne_of_lt (hbound r hr))
    · show ∀ r ∈ st.dns ++ [({ id := st.nextId, name := hostname, content := target, proxied := true } : DnsRecord)], r.id < st.nextId + 1
      intro r hr
      rcases List.mem_append.mp hr with hr1 | hr2
      · exact Nat.lt_succ_of_lt (hbound r hr1)
      · simp only [List.mem_singleton] at hr2
        subst hr2
        exact Nat.lt_succ_self _
  case h_1 e rest hf =>
    have heM : e ∈ st.dns.filter (fun r => decide (r.name = hostname)) := by
      rw [hf]
      exact List.mem_cons_self e rest
    have heMem : e ∈ st.dns := List.mem_of_mem_filter heM
    have heName : e.name = hostname := by
      have := List.of_mem_filter heM
      simpa using this
    have hge : 1 ≤ dnsCountFor hostname st.dns := by
      unfold dnsCountFor
      rw [List.countP_eq_length_filter, hf]
      simp
    have hone : dnsCountFor hostname st.dns = 1 := le_antisymm hcnt hge
    by_cases hupd : e.content ≠ target ∨ e.proxied ≠ true
    · rw [if_pos hupd]
      have hname : ∀ r ∈ st.dns,
          ((if r.id = e.id then { r with name := hostname, content := target, proxied := true } else r) : DnsRecord).name = r.name := by
        intro r hr
        by_cases hid : r.id = e.id
        · have hre : r = e := nodup_map_inj st.dns DnsRecord.id hnodup r hr e heMem hid
          rw [if_pos hid, hre, heName]
        · rw [if_neg hid]
      have hid2 : ∀ r ∈ st.dns,
          ((if r.id = e.id then { r with name := hostname, content := target, proxied := true } else r) : DnsRecord).id = r.id := by
        intro r _
        by_cases hid : r.id = e.id
        · rw [if_pos hid]
        · rw [if_neg hid]
      refine ⟨?_, ⟨?_, ?_⟩, rfl⟩
      · show (st.dns.map (fun r => if r.id = e.id then { r with name := hostname, content := target, proxied := true } else r)).countP (fun r => decide (r.name = hostname)) = 1
        rw [List.countP_map]
        rw [countP_congr_mem st.dns _ (fun r => decide (r.name = hostname))
          (fun r hr => by simp only [Function.comp]; rw [hname r hr])]
        exact hone
      · show ((st.dns.map (fun r => if r.id = e.id then { r with name := hostname, content := target, proxied := true } else r)).map DnsRecord.id).Nodup
        rw [List.map_map]
        rw [map_congr_mem st.dns _ DnsRecord.id
          (fun r hr => by simp only [Function.comp]; rw [hid2 r hr])]
        exact hnodup
      · show ∀ r ∈ st.dns.map (fun r => if r.id = e.id then { r with name := hostname, content := target, proxied := true } else r), r.id < st.nextId
        intro r hr
        rcases List.mem_map.mp hr with ⟨r0, hr0, rfl⟩
        rw [hid2 r0 hr0]
        exact hbound r0 hr0
    · rw [if_neg hupd]
      exact ⟨hone, ⟨hnodup, hbound⟩, rfl⟩

theorem computeHostname_ne_nil (n s bd : List Char) : computeHostname n s bd ≠ [] := by
  unfold computeHostname
  intro h
  exact absurd (List.append_eq_nil.mp h).2 (by simp)

/-- A successful run of `ensureProjectPublicExposure` reconciles the DNS
record and then the ingress rule for the computed hostname. -/
theorem ensureProjectPublicExposure_run (env : ExpoEnv) (args : EnsureExposureArgs)
    (st : ExpoState) (hbd : env.baseDomain ≠ []) (htu : env.tunnelUuid ≠ [])
    (htok : env.cfApiToken ≠ []) (hz : env.cfZoneId ≠ [])
    (u : List Char) (hsvc : determineServiceUrl env args.internalUrl args.port = .ok u) :
    ensureProjectPublicExposure env args st =
      .ok ((computeHostname args.projectName args.projectSlug env.baseDomain,
            "https://".data ++ computeHostname args.projectName args.projectSlug env.baseDomain),
        ensureTunnelIngress (computeHostname args.projectName args.projectSlug env.baseDomain)
          u env.tunnelUuid
          (ensureCloudflareCname (computeHostname args.projectName args.projectSlug env.baseDomain)
            (env.tunnelUuid ++ ".cfargotunnel.com".data) st)) := by
  unfold ensureProjectPublicExposure
  simp [hbd, htu, htok, hz, hsvc]

/-- C1 (amended): starting from any ingress document and a DNS zone with
at most one pre-existing CNAME for the hostname (the documented singleton
invariant), two successful calls of `ensureProjectPublicExposure` with
identical arguments leave exactly one DNS CNAME record and exactly one
ingress rule for the computed hostname, and the ingress document ends
with exactly one catch-all rule — provided the determined service URL is
not the catch-all sentinel `http_status:404` itself. -/
theorem ensureProjectPublicExposure_twice (env : ExpoEnv) (args : EnsureExposureArgs)
    (st : ExpoState)
    (hbd : env.baseDomain ≠ []) (htu : env.tunnelUuid ≠ [])
    (htok : env.cfApiToken ≠ []) (hz : env.cfZoneId ≠ [])
    (u : List Char) (hsvc : determineServiceUrl env args.internalUrl args.port = .ok u)
    (hu404 : u ≠ catchAllSvc)
    (hinv : DnsInv st)
    (hcnt : dnsCountFor (computeHostname args.projectName args.projectSlug env.baseDomain)
      st.dns ≤ 1) :
    ∃ r1 st1 r2 st2,
      ensureProjectPublicExposure env args st = .ok (r1, st1) ∧
      ensureProjectPublicExposure env args st1 = .ok (r2, st2) ∧
      dnsCountFor (computeHostname args.projectName args.projectSlug env.baseDomain)
        st2.dns = 1 ∧
      ingressCountFor (computeHostname args.projectName args.projectSlug env.baseDomain)
        st2.ingress = 1 ∧
      EndsWithOneCatchAll st2.ingress := by
  have hne := computeHostname_ne_nil args.projectName args.projectSlug env.baseDomain
  have spec1 := ensureCloudflareCname_spec
    (computeHostname args.projectName args.projectSlug env.baseDomain)
    (env.tunnelUuid ++ ".cfargotunnel.com".data) st hinv hcnt
  have hinv1 : DnsInv (ensureTunnelIngress
      (computeHostname args.projectName args.projectSlug env.baseDomain) u env.tunnelUuid
      (ensureCloudflareCname (computeHostname args.projectName args.projectSlug env.baseDomain)
        (env.tunnelUuid ++ ".cfargotunnel.com".data) st)) := spec1.2.1
  have hcnt1 : dnsCountFor (computeHostname args.projectName args.projectSlug env.baseDomain)
      (ensureTunnelIngress
        (computeHostname args.projectName args.projectSlug env.baseDomain) u env.tunnelUuid
        (ensureCloudflareCname (computeHostname args.projectName args.projectSlug env.baseDomain)
          (env.tunnelUuid ++ ".cfargotunnel.com".data) st)).dns ≤ 1 := le_of_eq spec1.1
  have spec2 := ensureCloudflareCname_spec
    (computeHostname args.projectName args.projectSlug env.baseDomain)
    (env.tunnelUuid ++ ".cfargotunnel.com".data) _ hinv1 hcnt1
  refine ⟨_, _, _, _,
    ensureProjectPublicExposure_run env args st hbd htu htok hz u hsvc,
    ensureProjectPublicExposure_run env args _ hbd htu htok hz u hsvc,
    spec2.1, ?_, ?_⟩
  · exact ingressCount_ensureTunnelIngress _ u env.tunnelUuid _ hne hu404
  · exact ends_ensureTunnelIngress _ u env.tunnelUuid _

theorem ensureProjectPublicExposure_twice_witness :
    ∃ r1 st1 r2 st2,
      ensureProjectPublicExposure envNoProxy ⟨"My Proj".data, "my-proj".data, some 8000, none⟩
        emptyExpoState = .ok (r1, st1) ∧
      ensureProjectPublicExposure envNoProxy ⟨"My Proj".data, "my-proj".data, some 8000, none⟩
        st1 = .ok (r2, st2) ∧
      dnsCountFor (computeHostname "My Proj".data "my-proj".data envNoProxy.baseDomain)
        st2.dns = 1 ∧
      ingressCountFor (computeHostname "My Proj".data "my-proj".data envNoProxy.baseDomain)
        st2.ingress = 1 ∧
      EndsWithOneCatchAll st2.ingress := by
  exact ensureProjectPublicExposure_twice envNoProxy
    ⟨"My Proj".data, "my-proj".data, some 8000, none⟩ emptyExpoState
    (by decide) (by decide) (by decide) (by decide)
    ("http://127.0.0.1:".data ++ natToDec 8000) rfl (by decide)
    ⟨by decide, by decide⟩ (by decide)

def ensureTwiceState (env : ExpoEnv) (args : EnsureExposureArgs) (st : ExpoState) :
    Except (List Char) ExpoState :=
  match ensureProjectPublicExposure env args st with
  | .error e => .error e
  | .ok (_, st1) =>
    match ensureProjectPublicExposure env args st1 with
    | .error e => .error e
    | .ok (_, st2) => .ok st2

/-- C1 counterexample: with an internal URL equal to the catch-all
sentinel `http_status:404`, the pushed ingress rule is itself stripped by
`ensureCatchAll404`, so two successful identical calls leave zero — not
exactly one — ingress rules for the computed hostname. -/
theorem ensureProjectPublicExposure_twice_counterexample :
    ∃ st2, ensureTwiceState envNoProxy ⟨"p".data, "p".data, none, some catchAllSvc⟩
        emptyExpoState = .ok st2 ∧
      ingressCountFor (computeHostname "p".data "p".data envNoProxy.baseDomain)
        st2.ingress = 0 := by
  refine ⟨_, rfl, ?_⟩
  decide

theorem sanitizeSlug_spec_witness :
    ∃ r, ensureProjectPublicExposure envNoProxy ⟨"My Proj".data, [], some 9, none⟩
        emptyExpoState = .ok r ∧
      r.1.1 = sanitizeSlug (if ([] : List Char) = [] then "My Proj".data else []) ++
        '.' :: envNoProxy.baseDomain := by
  refine ⟨_, rfl, ?_⟩
  exact sanitizeSlug_spec.2.2 envNoProxy ⟨"My Proj".data, [], some 9, none⟩ emptyExpoState _ rfl

/-! ## project.ts: slug and port generation (createProject) -/

theorem natToDecAux_irrel :
    ∀ (n f1 f2 : Nat), n < f1 → n < f2 → natToDecAux f1 n = natToDecAux f2 n
  | _, 0, _, h1, _ => absurd h1 (by omega)
  | _, _ + 1, 0, _, h2 => absurd h2 (by omega)
  | n, f1 + 1, f2 + 1, h1, h2 => by
    by_cases h : n < 10
    · simp [natToDecAux, h]
    · simp only [natToDecAux, h, if_false]
      have hd : n / 10 < n := Nat.div_lt_self (by omega) (by omega)
      rw [natToDecAux_irrel (n / 10) f1 f2 (by omega) (by omega)]
termination_by n _ _ _ _ => n

theorem natToDec_lt (n : Nat) (h : n < 10) : natToDec n = [Nat.digitChar n] := by
  simp [natToDec, natToDecAux, h]

theorem natToDec_ge (n : Nat) (h : 10 ≤ n) :
    natToDec n = natToDec (n / 10) ++ [Nat.digitChar (n % 10)] := by
  have step : natToDec n = natToDecAux n (n / 10) ++ [Nat.digitChar (n % 10)] := by
    show (if n < 10 then [Nat.digitChar n]
      else natToDecAux n (n / 10) ++ [Nat.digitChar (n % 10)]) = _
    rw [if_neg (Nat.not_lt.mpr h)]
  rw [step]
  have hd : n / 10 < n := Nat.div_lt_self (by omega) (by omega)
  rw [natToDecAux_irrel (n / 10) n (n / 10 + 1) hd (Nat.lt_succ_self _)]
  rfl

theorem digitChar_digit (n : Nat) (h : n < 10) :
    '0' ≤ Nat.digitChar n ∧ Nat.digitChar n ≤ '9' := by
  interval_cases n <;> decide

theorem natToDec_digits (n : Nat) : ∀ c ∈ natToDec n, '0' ≤ c ∧ c ≤ '9' := by
  induction n using Nat.strong_induction_on with
  | _ n ih =>
    by_cases h : n < 10
    · rw [natToDec_lt n h]
      intro c hc
      simp only [List.mem_singleton] at hc
      subst hc
      exact digitChar_digit n h
    · rw [natToDec_ge n (by omega)]
      intro c hc
      rcases List.mem_append.mp hc with h1 | h2
      · exact ih (n / 10) (Nat.div_lt_self (by omega) (by omega)) c h1
      · simp only [List.mem_singleton] at h2
        subst h2
        exact digitChar_digit _ (Nat.mod_lt n (by omega))

theorem natToDec_no_dash (n : Nat) : '-' ∉ natToDec n := by
  intro hmem
  have := natToDec_digits n '-' hmem
  exact absurd this (by decide)

def decVal (l : List Char) : Nat :=
  l.foldl (fun acc c => 10 * acc + (c.toNat - '0'.toNat)) 0

theorem decVal_digitChar (n : Nat) (h : n < 10) :
    (Nat.digitChar n).toNat - '0'.toNat = n := by
  interval_cases n <;> decide

theorem decVal_natToDec (n : Nat) : decVal (natToDec n) = n := by
  induction n using Nat.strong_induction_on with
  | _ n ih =>
    by_cases h : n < 10
    · rw [natToDec_lt n h]
      show 10 * 0 + ((Nat.digitChar n).toNat - '0'.toNat) = n
      rw [decVal_digitChar n h]
      omega
    · rw [natToDec_ge n (by omega)]
      unfold decVal
      rw [List.foldl_append]
      simp only [List.foldl_cons, List.foldl_nil]
      have h1 := ih (n / 10) (Nat.div_lt_self (by omega) (by omega))
      unfold decVal at h1
      rw [h1, decVal_digitChar _ (Nat.mod_lt n (by omega))]
      omega

theorem natToDec_inj (m n : Nat) (h : natToDec m = natToDec n) : m = n := by
  have hm := decVal_natToDec m
  rw [h, decVal_natToDec] at hm
  omega

theorem dash_append_inj :
    ∀ (x1 x2 y1 y2 : List Char), '-' ∉ x1 → '-' ∉ x2 →
      x1 ++ '-' :: y1 = x2 ++ '-' :: y2 → x1 = x2 ∧ y1 = y2
  | [], [], y1, y2, _, _, h => by simpa using h
  | [], c :: x2t, y1, y2, _, h2, h => by
    simp only [List.nil_append, List.cons_append, List.cons.injEq] at h
    rw [← h.1] at h2
    exact absurd (List.mem_cons_self '-' x2t) h2
  | c :: x1t, [], y1, y2, h1, _, h => by
    simp only [List.nil_append, List.cons_append, List.cons.injEq] at h
    rw [h.1] at h1
    exact absurd (List.mem_cons_self '-' x1t) h1
  | c :: x1t, d :: x2t, y1, y2, h1, h2, h => by
    simp only [List.cons_append, List.cons.injEq] at h
    have ih := dash_append_inj x1t x2t y1 y2
      (fun hm => h1 (List.mem_cons_of_mem c hm))
      (fun hm => h2 (List.mem_cons_of_mem d hm)) h.2
    exact ⟨by rw [h.1, ih.1], ih.2⟩

/-- The slug derived at creation:
`name.toLowerCase().replace(/[^a-z0-9]/g, '-') + '-' + timestamp`.
(Unlike `sanitizeSlug`, the class here excludes `-`, which is replaced by
itself.) -/
def sanitizeNameJs (name : List Char) : List Char :=
  (name.map Char.toLower).map fun c =>
    if ('a' ≤ c && c ≤ 'z') || ('0' ≤ c && c ≤ '9') then c else '-'

def slugOf (name : List Char) (timestamp : Nat) : List Char :=
  sanitizeNameJs name ++ '-' :: natToDec timestamp

/-- `8000 + (timestamp % 10000)`. -/
def basePortOf (timestamp : Nat) : Nat := 8000 + timestamp % 10000

/-- The constant offsets of the sibling ports assigned by `createProject`:
KONG_HTTP +0, STUDIO +100, KONG_HTTPS +443, ANALYTICS +1000,
POSTGRES +2000, POOLER_PROXY_PORT_TRANSACTION +3000. -/
def portOffsets : List Nat := [0, 100, 443, 1000, 2000, 3000]

def projectPorts (timestamp : Nat) : List Nat :=
  portOffsets.map fun o => basePortOf timestamp + o

theorem slugOf_inj_ts (n1 n2 : List Char) (t1 t2 : Nat)
    (h : slugOf n1 t1 = slugOf n2 t2) : t1 = t2 := by
  have hr := congrArg List.reverse h
  simp only [slugOf, List.reverse_append, List.reverse_cons] at hr
  rw [List.append_assoc, List.append_assoc, List.singleton_append, List.singleton_append] at hr
  have hd := dash_append_inj (natToDec t1).reverse (natToDec t2).reverse
    (sanitizeNameJs n1).reverse (sanitizeNameJs n2).reverse
    (fun hm => natToDec_no_dash t1 (List.mem_reverse.mp hm))
    (fun hm => natToDec_no_dash t2 (List.mem_reverse.mp hm)) hr
  exact natToDec_inj t1 t2 (List.reverse_injective hd.1)

def offsetDiffs : List Int :=
  portOffsets.flatMap fun a : Nat => portOffsets.map fun b : Nat => (a : Int) - (b : Int)

/-! ## Identity rewrite (createProject): container names and project name

Each mapping becomes `new RegExp('container_name: ' + original, 'g')`; the
unescaped `.` in `realtime-dev.supabase-realtime` is a regex wildcard.
The project-name line is `/^name: supabase$/m` without the `g` flag:
only the first matching line is replaced. -/

def containerPat (original : List Char) : List RItem :=
  lits "container_name: " ++ original.map fun c => if c = '.' then RItem.wild else RItem.lit c

def containerRep (replacement : List Char) : List Char :=
  "container_name: ".data ++ replacement

def containerMappings (slug : List Char) : List (List Char × List Char) :=
  [("supabase-studio".data, slug ++ "-studio".data),
   ("supabase-kong".data, slug ++ "-kong".data),
   ("supabase-auth".data, slug ++ "-auth".data),
   ("supabase-rest".data, slug ++ "-rest".data),
   ("realtime-dev.supabase-realtime".data, "realtime-dev.".data ++ slug ++ "-realtime".data),
   ("supabase-storage".data, slug ++ "-storage".data),
   ("supabase-imgproxy".data, slug ++ "-imgproxy".data),
   ("supabase-meta".data, slug ++ "-meta".data),
   ("supabase-edge-functions".data, slug ++ "-edge-functions".data),
   ("supabase-analytics".data, slug ++ "-analytics".data),
   ("supabase-db".data, slug ++ "-db".data),
   ("supabase-vector".data, slug ++ "-vector".data),
   ("supabase-pooler".data, slug ++ "-pooler".data)]

def containerPairs (slug : List Char) : List (List RItem × List Char) :=
  (containerMappings slug).map fun m => (containerPat m.1, containerRep m.2)

def containerRewrite (slug content : List Char) : List Char :=
  applyPairs (containerPairs slug) content

/-- Does `/^name: supabase$/m` match at this position (assumed to be a
line start)?  True when `target` is a prefix and the next character is a
line terminator or the end of input. -/
def lineHereB (target l : List Char) : Bool :=
  target.isPrefixOf l &&
    (match l.drop target.length with
     | [] => true
     | c :: _ => isLineTerm c)

/-- Replace the first line matching `target` (anchored `^...$`, multiline,
non-global) by `repl`; `flag` records whether the current position is a
line start. -/
def replNL (target repl : List Char) : Bool → List Char → List Char
  | flag, [] => if flag && lineHereB target [] then repl ++ [].drop target.length else []
  | flag, x :: r =>
    if flag && lineHereB target (x :: r) then repl ++ (x :: r).drop target.length
    else x :: replNL target repl (isLineTerm x) r

def nameLinePat : List Char := "name: supabase".data

def nameLineRepl (slug : List Char) : List Char := "name: ".data ++ slug

/-- The identity rewrite of `createProject`: the thirteen container-name
replacements in source order, then the project-name line replacement. -/
def identityRewrite (slug content : List Char) : List Char :=
  replNL nameLinePat (nameLineRepl slug) true (containerRewrite slug content)

/-! ## Occurrence analysis for the non-global multiline replacement -/

/-- Does the scan of `l` (entered with line-start flag `flag`) reach a
position where `/^target$/m` matches? -/
def nlHit (target : List Char) : Bool → List Char → Bool
  | flag, [] => flag && lineHereB target []
  | flag, x :: r => (flag && lineHereB target (x :: r)) || nlHit target (isLineTerm x) r

/-- The number of scan positions at which `/^target$/m` matches. -/
def nlCountB (target : List Char) : Bool → List Char → Nat
  | flag, [] => if flag && lineHereB target [] then 1 else 0
  | flag, x :: r =>
    (if flag && lineHereB target (x :: r) then 1 else 0) + nlCountB target (isLineTerm x) r

/-- Restriction of `nlHit` to the positions inside `u` of the document
`u ++ v`. -/
def nlHitPre (target : List Char) : Bool → List Char → List Char → Bool
  | _, [], _ => false
  | flag, x :: u, v =>
    (flag && lineHereB target (x :: (u ++ v))) || nlHitPre target (isLineTerm x) u v

/-- The line-start flag after scanning a block of characters. -/
def endFlag : Bool → List Char → Bool
  | flag, [] => flag
  | _, x :: u => endFlag (isLineTerm x) u

theorem nlHit_cons (target : List Char) (flag : Bool) (x : Char) (r : List Char) :
    nlHit target flag (x :: r)
      = ((flag && lineHereB target (x :: r)) || nlHit target (isLineTerm x) r) := rfl

theorem nlCountB_cons (target : List Char) (flag : Bool) (x : Char) (r : List Char) :
    nlCountB target flag (x :: r)
      = (if flag && lineHereB target (x :: r) then 1 else 0) + nlCountB target (isLineTerm x) r :=
  rfl

theorem nlHit_append (target : List Char) :
    ∀ (u : List Char) (flag : Bool) (v : List Char),
      nlHit target flag (u ++ v)
        = (nlHitPre target flag u v || nlHit target (endFlag flag u) v)
  | [], flag, v => by simp [nlHitPre, endFlag]
  | x :: u, flag, v => by
    simp only [List.cons_append, nlHit, nlHitPre, endFlag, List.append_eq]
    rw [nlHit_append target u (isLineTerm x) v]
    cases flag && lineHereB target (x :: (u ++ v)) <;> simp

theorem nlCount_tail_le (target : List Char) :
    ∀ (u : List Char) (flag : Bool) (v : List Char),
      nlCountB target (endFlag flag u) v ≤ nlCountB target flag (u ++ v)
  | [], _, _ => Nat.le_refl _
  | x :: u, flag, v => by
    simp only [List.cons_append, nlCountB, endFlag, List.append_eq]
    have := nlCount_tail_le target u (isLineTerm x) v
    omega

theorem nlHit_false_of_count (target : List Char) :
    ∀ (l : List Char) (flag : Bool),
      nlCountB target flag l = 0 → nlHit target flag l = false
  | [], flag, h => by
    simp only [nlCountB] at h
    simp only [nlHit]
    split at h
    · exact absurd h (by omega)
    · rename_i hc
      exact Bool.eq_false_iff.mpr hc
  | x :: r, flag, h => by
    simp only [nlCountB] at h
    simp only [nlHit]
    split at h
    · exact absurd h (by omega)
    · rename_i hc
      rw [Bool.eq_false_iff.mpr hc, nlHit_false_of_count target r (isLineTerm x) (by omega)]
      rfl

theorem nlCount_skip (target : List Char) :
    ∀ (u : List Char), (∀ c ∈ u, isLineTerm c = false) →
      ∀ v, nlCountB target false (u ++ v) = nlCountB target false v
  | [], _, _ => rfl
  | x :: u, h, v => by
    simp only [List.cons_append, nlCountB, Bool.false_and, if_neg (by simp : ¬ (false = true)),
      h x (List.mem_cons_self x u), Nat.zero_add]
    exact nlCount_skip target u (fun c hc => h c (List.mem_cons_of_mem x hc)) v

theorem nlHit_skip (target : List Char) :
    ∀ (u : List Char), (∀ c ∈ u, isLineTerm c = false) →
      ∀ v, nlHit target false (u ++ v) = nlHit target false v
  | [], _, _ => rfl
  | x :: u, h, v => by
    simp only [List.cons_append, nlHit, Bool.false_and, h x (List.mem_cons_self x u),
      Bool.false_or]
    exact nlHit_skip target u (fun c hc => h c (List.mem_cons_of_mem x hc)) v

theorem replNL_of_not_hit (target repl : List Char) :
    ∀ (l : List Char) (flag : Bool),
      nlHit target flag l = false → replNL target repl flag l = l
  | [], flag, h => by
    simp only [nlHit] at h
    simp [replNL, h]
  | x :: r, flag, h => by
    simp only [nlHit, Bool.or_eq_false_iff] at h
    simp only [replNL, h.1, Bool.false_eq_true, if_false]
    rw [replNL_of_not_hit target repl r (isLineTerm x) h.2]

theorem endFlag_concat : ∀ (u : List Char) (flag : Bool) (c : Char),
    endFlag flag (u ++ [c]) = isLineTerm c
  | [], _, _ => rfl
  | x :: u, _, c => endFlag_concat u (isLineTerm x) c

theorem endFlag_true_cases (flag : Bool) (A : List Char) (h : endFlag flag A = true) :
    (A = [] ∧ flag = true) ∨ ∃ A0 c, A = A0 ++ [c] ∧ isLineTerm c = true := by
  rcases List.eq_nil_or_concat A with rfl | ⟨A0, c, hA⟩
  · exact Or.inl ⟨rfl, h⟩
  · rw [List.concat_eq_append] at hA
    subst hA
    exact Or.inr ⟨A0, c, rfl, by rw [← endFlag_concat A0 flag c]; exact h⟩

theorem pfx_of_isPrefixOf : ∀ (u v : List Char), u.isPrefixOf v = true → ∃ w, v = u ++ w
  | [], v, _ => ⟨v, rfl⟩
  | x :: u, [], h => by simp [List.isPrefixOf] at h
  | x :: u, y :: v, h => by
    simp only [List.isPrefixOf, Bool.and_eq_true, beq_iff_eq] at h
    obtain ⟨w, hw⟩ := pfx_of_isPrefixOf u v h.2
    exact ⟨w, by rw [hw, h.1, List.cons_append]⟩

theorem isPrefixOf_append : ∀ (u v : List Char), u.isPrefixOf (u ++ v) = true
  | [], _ => by simp [List.isPrefixOf]
  | x :: u, v => by simp [List.isPrefixOf, isPrefixOf_append u v]

/-- The first matching line of `l` splits it as `A ++ target ++ B`: the
scan of `A` found nothing, the flag at the match is set, and the match is
followed by a line terminator or the end of input. -/
theorem replNL_decomp (target repl : List Char) (ht : target ≠ []) :
    ∀ (l : List Char) (flag : Bool), nlHit target flag l = true →
      ∃ A B, l = A ++ (target ++ B) ∧
        replNL target repl flag l = A ++ (repl ++ B) ∧
        nlHitPre target flag A (target ++ B) = false ∧
        endFlag flag A = true ∧
        (B = [] ∨ ∃ c B2, B = c :: B2 ∧ isLineTerm c = true)
  | [], flag, h => by
    rcases target with _ | ⟨t0, ts⟩
    · exact absurd rfl ht
    · simp [nlHit, lineHereB, List.isPrefixOf] at h
  | x :: r, flag, h => by
    by_cases hc : (flag && lineHereB target (x :: r)) = true
    · rw [Bool.and_eq_true] at hc
      obtain ⟨hflag, hline⟩ := hc
      have hc : (flag && lineHereB target (x :: r)) = true := by rw [hflag, hline]; rfl
      have hline2 := hline
      unfold lineHereB at hline2
      rw [Bool.and_eq_true] at hline2
      obtain ⟨hpf, hbnd⟩ := hline2
      obtain ⟨s, hs⟩ := pfx_of_isPrefixOf target (x :: r) hpf
      have hdrop : (x :: r).drop target.length = s := by rw [hs, List.drop_left]
      refine ⟨[], s, by simpa using hs, ?_, rfl, hflag, ?_⟩
      · simp only [List.nil_append]
        simp only [replNL, hc, if_true]
        rw [hdrop]
      · rw [hdrop] at hbnd
        cases s with
        | nil => exact Or.inl rfl
        | cons c B2 => exact Or.inr ⟨c, B2, rfl, hbnd⟩
    · have hcf : (flag && lineHereB target (x :: r)) = false := Bool.eq_false_iff.mpr hc
      have h2 : nlHit target (isLineTerm x) r = true := by
        simp only [nlHit, hcf, Bool.false_or] at h
        exact h
      obtain ⟨A, B, h1, h2', h3, h4, h5⟩ := replNL_decomp target repl ht r (isLineTerm x) h2
      refine ⟨x :: A, B, by rw [List.cons_append, ← h1], ?_, ?_, h4, h5⟩
      · simp only [replNL, hcf, Bool.false_eq_true, if_false]
        rw [h2', List.cons_append]
      · simp only [nlHitPre]
        rw [← h1, hcf, h3]
        rfl

/-- The character class `[a-z0-9-]`; every character of a slug built by
`createProject` belongs to it. -/
def classOkB (c : Char) : Bool :=
  (decide ('a' ≤ c) && decide (c ≤ 'z')) || (decide ('0' ≤ c) && decide (c ≤ '9')) ||
    decide (c = '-')

theorem classOk_nonterm (c : Char) (h : classOkB c = true) : isLineTerm c = false := by
  cases hlt : isLineTerm c
  · rfl
  · exfalso
    simp only [isLineTerm, Bool.or_eq_true, decide_eq_true_eq] at hlt
    rcases hlt with ((rfl | rfl) | rfl) | rfl <;> exact absurd h (by decide)

/-- The `$`-anchor check of `lineHereB`, as a named function. -/
def bndB (l : List Char) : Bool :=
  match l with
  | [] => true
  | c :: _ => isLineTerm c

theorem lineHereB_eq (target l : List Char) :
    lineHereB target l = (target.isPrefixOf l && bndB (l.drop target.length)) := by
  unfold lineHereB bndB
  cases l.drop target.length <;> rfl

/-- A line anchored on `name: supabase` never matches at the replaced
line `name: <slug>` when the slug stays inside `[a-z0-9-]` and differs
from `supabase`. -/
theorem lineHereB_repl_false (slug : List Char) (hcls : ∀ c ∈ slug, classOkB c = true)
    (hsup : slug ≠ "supabase".data) (B : List Char)
    (hB : B = [] ∨ ∃ c B2, B = c :: B2 ∧ isLineTerm c = true) :
    lineHereB nameLinePat (nameLineRepl slug ++ B) = false := by
  rw [lineHereB_eq]
  apply Bool.eq_false_iff.mpr
  intro htrue
  rw [Bool.and_eq_true] at htrue
  obtain ⟨hpf, hbnd⟩ := htrue
  obtain ⟨w, hw⟩ := pfx_of_isPrefixOf _ _ hpf
  have hshape : nameLineRepl slug ++ B = "name: ".data ++ (slug ++ B) := by
    rw [nameLineRepl, List.append_assoc]
  have hshape2 : nameLinePat ++ w = "name: ".data ++ ("supabase".data ++ w) := by
    rw [show nameLinePat = "name: ".data ++ "supabase".data from rfl, List.append_assoc]
  rw [hshape, hshape2] at hw
  have heq : slug ++ B = "supabase".data ++ w := List.append_cancel_left hw
  rcases List.append_eq_append_iff.mp heq with ⟨a2, ha, hb⟩ | ⟨c2, hc, hd⟩
  · -- "supabase" = slug ++ a2, B = a2 ++ w
    rcases a2 with _ | ⟨d, a3⟩
    · rw [List.append_nil] at ha
      exact hsup ha.symm
    · have hd2 : d ∈ "supabase".data := by
        rw [ha]
        exact List.mem_append_right slug (List.mem_cons_self d a3)
      have hdnt : isLineTerm d = false := by
        have : ∀ c ∈ "supabase".data, isLineTerm c = false := by decide
        exact this d hd2
      rcases hB with rfl | ⟨c, B2, hBc, hcterm⟩
      · exact (List.cons_ne_nil d (a3 ++ w)) hb.symm
      · rw [hBc, List.cons_append] at hb
        rw [List.cons.injEq] at hb
        obtain ⟨hcd, -⟩ := hb
        subst hcd
        rw [hdnt] at hcterm
        exact Bool.false_ne_true hcterm
  · -- slug = "supabase" ++ c2, w = c2 ++ B
    rcases c2 with _ | ⟨d, c3⟩
    · rw [List.append_nil] at hc
      exact hsup hc
    · have hd2 : d ∈ slug := by
        rw [hc]
        exact List.mem_append_right _ (List.mem_cons_self d c3)
      have hdrop : (nameLineRepl slug ++ B).drop nameLinePat.length
          = d :: (c3 ++ B) := by
        rw [hshape, hc]
        rw [show "name: ".data ++ (("supabase".data ++ d :: c3) ++ B)
            = nameLinePat ++ (d :: c3 ++ B) by
          rw [show nameLinePat = "name: ".data ++ "supabase".data from rfl]
          simp [List.append_assoc]]
        rw [List.drop_left]
        rfl
      rw [hdrop] at hbnd
      have hbnd2 : isLineTerm d = true := hbnd
      rw [classOk_nonterm d (hcls d hd2)] at hbnd2
      exact Bool.false_ne_true hbnd2

/-- At a position strictly before the replaced line, a match of
`^name: supabase$` against the rewritten document implies one against the
original document. -/
theorem lineHereB_trans (slug B : List Char) (A' : List Char) (hA : A' ≠ [])
    (h : lineHereB nameLinePat (A' ++ (nameLineRepl slug ++ B)) = true) :
    lineHereB nameLinePat (A' ++ (nameLinePat ++ B)) = true := by
  rw [lineHereB_eq] at h ⊢
  rw [Bool.and_eq_true] at h
  obtain ⟨hpf, hbnd⟩ := h
  obtain ⟨w, hw⟩ := pfx_of_isPrefixOf _ _ hpf
  rcases List.append_eq_append_iff.mp hw.symm with ⟨a2, ha, hb⟩ | ⟨c2, hc, hd⟩
  · -- A' = nameLinePat ++ a2
    subst ha
    have hpf2 : nameLinePat.isPrefixOf ((nameLinePat ++ a2) ++ (nameLinePat ++ B)) = true := by
      rw [List.append_assoc]
      exact isPrefixOf_append _ _
    rw [hpf2]
    have hdropz : ((nameLinePat ++ a2) ++ (nameLineRepl slug ++ B)).drop nameLinePat.length
        = a2 ++ (nameLineRepl slug ++ B) := by
      rw [List.append_assoc, List.drop_left]
    have hdropy : ((nameLinePat ++ a2) ++ (nameLinePat ++ B)).drop nameLinePat.length
        = a2 ++ (nameLinePat ++ B) := by
      rw [List.append_assoc, List.drop_left]
    rw [hdropz] at hbnd
    rw [hdropy]
    rcases a2 with _ | ⟨d, a3⟩
    · -- boundary char is the head of the replacement: 'n', not a terminator
      exfalso
      rw [List.nil_append] at hbnd
      rw [show nameLineRepl slug ++ B = 'n' :: ("ame: ".data ++ (slug ++ B)) by
        rw [nameLineRepl, List.append_assoc]; rfl] at hbnd
      have : isLineTerm 'n' = true := hbnd
      exact Bool.false_ne_true this
    · rw [List.cons_append] at hbnd ⊢
      exact hbnd
  · -- nameLinePat = A' ++ c2 with c2 a proper tail: impossible head
    exfalso
    rcases c2 with _ | ⟨d, c3⟩
    · -- A' = nameLinePat: boundary is 'n'
      rw [List.append_nil] at hc
      subst hc
      have hdropz : (nameLinePat ++ (nameLineRepl slug ++ B)).drop nameLinePat.length
          = nameLineRepl slug ++ B := List.drop_left _ _
      rw [hdropz] at hbnd
      rw [show nameLineRepl slug ++ B = 'n' :: ("ame: ".data ++ (slug ++ B)) by
        rw [nameLineRepl, List.append_assoc]; rfl] at hbnd
      have : isLineTerm 'n' = true := hbnd
      exact Bool.false_ne_true this
    · -- the tail d :: c3 of the pattern starts the replacement: d = 'n',
      -- but 'n' does not occur past the head of the pattern
      rcases A' with _ | ⟨a0, A''⟩
      · exact hA rfl
      · have hc2 : nameLinePat = a0 :: (A'' ++ d :: c3) := by
          rw [hc, List.cons_append]
        rw [show nameLinePat = 'n' :: "ame: supabase".data from rfl] at hc2
        rw [List.cons.injEq] at hc2
        have hdn : d = 'n' := by
          have hw2 : nameLineRepl slug ++ B = d :: (c3 ++ w) := hd
          rw [show nameLineRepl slug ++ B = 'n' :: ("ame: ".data ++ (slug ++ B)) by
            rw [nameLineRepl, List.append_assoc]; rfl] at hw2
          rw [List.cons.injEq] at hw2
          exact hw2.1.symm
        have : 'n' ∈ "ame: supabase".data := by
          rw [hc2.2]
          rw [← hdn]
          exact List.mem_append_right A'' (List.mem_cons_self d c3)
        exact absurd this (by decide)

/-- Transfer of "no match inside the prefix block" from the original to
the rewritten document. -/
theorem nlHitPre_trans (slug B : List Char) :
    ∀ (A : List Char) (flag : Bool),
      nlHitPre nameLinePat flag A (nameLinePat ++ B) = false →
      nlHitPre nameLinePat flag A (nameLineRepl slug ++ B) = false
  | [], _, _ => rfl
  | x :: A, flag, h => by
    simp only [nlHitPre, Bool.or_eq_false_iff] at h ⊢
    refine ⟨?_, nlHitPre_trans slug B A (isLineTerm x) h.2⟩
    cases hf : flag
    · rfl
    · rw [hf] at h
      cases hline : lineHereB nameLinePat (x :: (A ++ (nameLineRepl slug ++ B)))
      · rfl
      · exfalso
        rw [← List.cons_append] at hline
        have := lineHereB_trans slug B (x :: A) (List.cons_ne_nil x A) hline
        rw [List.cons_append] at this
        rw [this] at h
        exact absurd h.1 (by simp)

/-! ## Container patterns against the rewritten name line -/

/-- Patterns made only of single-character items (literal or wildcard). -/
def fixedB (p : List RItem) : Bool :=
  p.all fun it => match it with | .lit _ => true | .wild => true | _ => false

/-- No literal of the pattern is a line terminator (so no item of the
pattern can consume a line terminator). -/
def litsNonTermB (p : List RItem) : Bool :=
  p.all fun it => match it with | .lit c => !isLineTerm c | _ => true

/-- The pattern starts with the literal `c` (of `container_name: `). -/
def headIsCB (p : List RItem) : Bool :=
  match p with
  | .lit c :: _ => decide (c = 'c')
  | _ => false

/-- Some literal of the pattern lies outside `[a-z0-9-]` (for the
container patterns: the `_`, `:` and space of `container_name: `). -/
def hasNonClassLitB (p : List RItem) : Bool :=
  p.any fun it => match it with | .lit c => !classOkB c | _ => false

theorem fixedB_tail {it : RItem} {p : List RItem} (h : fixedB (it :: p) = true) :
    fixedB p = true := by
  simp only [fixedB, List.all_cons, Bool.and_eq_true] at h ⊢
  exact h.2

theorem litsNonTermB_tail {it : RItem} {p : List RItem} (h : litsNonTermB (it :: p) = true) :
    litsNonTermB p = true := by
  simp only [litsNonTermB, List.all_cons, Bool.and_eq_true] at h ⊢
  exact h.2

/-- A pattern with a literal outside `[a-z0-9-]` and no line-terminator
literal never matches a block of class characters followed by a line
terminator or the end of input. -/
theorem matchPat_none_class :
    ∀ (p : List RItem), fixedB p = true → litsNonTermB p = true →
      hasNonClassLitB p = true →
      ∀ (w B : List Char), (∀ c ∈ w, classOkB c = true) →
        (B = [] ∨ ∃ c B2, B = c :: B2 ∧ isLineTerm c = true) →
        matchPat p (w ++ B) = none
  | [], _, _, hncl, _, _, _, _ => by simp [hasNonClassLitB] at hncl
  | .lit ch :: p', hfix, hnt, hncl, w, B, hw, hB => by
    cases w with
    | nil =>
      rcases hB with rfl | ⟨c, B2, rfl, hc⟩
      · simp [matchPat]
      · have hch : isLineTerm ch = false := by
          simp only [litsNonTermB, List.all_cons, Bool.and_eq_true, Bool.not_eq_true'] at hnt
          exact hnt.1
        have hne : c ≠ ch := by
          intro he
          rw [he, hch] at hc
          exact Bool.false_ne_true hc
        simp [matchPat, hne]
    | cons x w' =>
      by_cases hx : x = ch
      · have hchc : classOkB ch = true := by
          rw [← hx]
          exact hw x (List.mem_cons_self x w')
        have hncl' : hasNonClassLitB p' = true := by
          simp only [hasNonClassLitB, List.any_cons, hchc, Bool.not_true, Bool.false_or] at hncl
          exact hncl
        rw [List.cons_append]
        simp only [matchPat, hx, if_pos rfl]
        exact matchPat_none_class p' (fixedB_tail hfix) (litsNonTermB_tail hnt) hncl'
          w' B (fun c hc => hw c (List.mem_cons_of_mem x hc)) hB
  -- first item is a literal that mismatches: done
      · rw [List.cons_append]
        simp [matchPat, hx]
  | .wild :: p', hfix, hnt, hncl, w, B, hw, hB => by
    cases w with
    | nil =>
      rcases hB with rfl | ⟨c, B2, rfl, hc⟩
      · simp [matchPat]
      · simp [matchPat, hc]
    | cons x w' =>
      have hxnt : isLineTerm x = false := classOk_nonterm x (hw x (List.mem_cons_self x w'))
      have hncl' : hasNonClassLitB p' = true := by
        simpa [hasNonClassLitB] using hncl
      rw [List.cons_append]
      simp only [matchPat, hxnt, Bool.false_eq_true, if_false]
      exact matchPat_none_class p' (fixedB_tail hfix) (litsNonTermB_tail hnt) hncl'
        w' B (fun c hc => hw c (List.mem_cons_of_mem x hc)) hB
  | .wsStar :: p', hfix, _, _, _, _, _, _ => by simp [fixedB] at hfix
  | .optQuote :: p', hfix, _, _, _, _, _, _ => by simp [fixedB] at hfix

/-- A fixed pattern whose literals are not line terminators cannot see
past a line terminator: whether it matches a window `A0 ++ [c] ++ _`
ending at the terminator `c` does not depend on what follows. -/
theorem matchPat_term_indep :
    ∀ (A0 : List Char) (p : List RItem), fixedB p = true → litsNonTermB p = true →
      ∀ (c : Char), isLineTerm c = true → ∀ (v w : List Char),
        (matchPat p ((A0 ++ [c]) ++ v)).isSome = (matchPat p ((A0 ++ [c]) ++ w)).isSome
  | [], p, hfix, hnt, c, hc, v, w => by
    cases p with
    | nil => simp [matchPat]
    | cons it p' =>
      cases it with
      | lit ch =>
        have hch : isLineTerm ch = false := by
          simp only [litsNonTermB, List.all_cons, Bool.and_eq_true, Bool.not_eq_true'] at hnt
          exact hnt.1
        have hne : c ≠ ch := by
          intro he
          rw [he, hch] at hc
          exact Bool.false_ne_true hc
        simp [matchPat, hne]
      | wild => simp [matchPat, hc]
      | wsStar => simp [fixedB] at hfix
      | optQuote => simp [fixedB] at hfix
  | x :: A0, p, hfix, hnt, c, hc, v, w => by
    cases p with
    | nil => simp [matchPat]
    | cons it p' =>
      cases it with
      | lit ch =>
        by_cases hx : x = ch
        · simp only [List.cons_append, matchPat, hx, if_pos rfl]
          exact matchPat_term_indep A0 p' (fixedB_tail hfix) (litsNonTermB_tail hnt) c hc v w
        · simp [matchPat, hx]
      | wild =>
        cases hxt : isLineTerm x
        · simp only [List.cons_append, matchPat, hxt, Bool.false_eq_true, if_false]
          exact matchPat_term_indep A0 p' (fixedB_tail hfix) (litsNonTermB_tail hnt) c hc v w
        · simp [matchPat, hxt]
      | wsStar => simp [fixedB] at hfix
      | optQuote => simp [fixedB] at hfix

/-- A nonempty suffix of `A0 ++ [c]` ends in `c`. -/
theorem suffix_concat_ne {A' A0 : List Char} {c : Char}
    (hs : A' <:+ A0 ++ [c]) (hne : A' ≠ []) : ∃ A1, A' = A1 ++ [c] := by
  rcases hs with ⟨pre, hpre⟩
  rcases List.eq_nil_or_concat A' with rfl | ⟨A1, d, hA⟩
  · exact absurd rfl hne
  · rw [List.concat_eq_append] at hA
    subst hA
    rw [← List.append_assoc] at hpre
    have := List.append_inj' hpre rfl
    exact ⟨A1, by rw [List.cons.injEq] at this; rw [this.2.1]⟩

/-- Replacing the matched name line by `name: <slug>` cannot create a
match of a container pattern anywhere in the document. -/
theorem noMatch_window (p : List RItem) (hfix : fixedB p = true)
    (hnt : litsNonTermB p = true) (hhc : headIsCB p = true)
    (hncl : hasNonClassLitB p = true)
    (slug : List Char) (hcls : ∀ c ∈ slug, classOkB c = true)
    (A B : List Char) (hef : endFlag true A = true)
    (hB : B = [] ∨ ∃ c B2, B = c :: B2 ∧ isLineTerm c = true)
    (hnm : NoMatch p (A ++ (nameLinePat ++ B))) :
    NoMatch p (A ++ (nameLineRepl slug ++ B)) := by
  intro s hs
  rcases suffix_append_cases hs with hsv | ⟨A', hA', hAne, rfl⟩
  · -- a suffix of the replaced line and what follows
    have hshape : nameLineRepl slug ++ B = "name: ".data ++ (slug ++ B) := by
      rw [nameLineRepl, List.append_assoc]
    rw [hshape] at hsv
    rcases suffix_append_cases hsv with hsv2 | ⟨n', hn', hne, rfl⟩
    · -- a suffix of slug ++ B
      rcases suffix_append_cases hsv2 with hsB | ⟨w', hw', _, rfl⟩
      · -- a suffix of B: also a suffix of the original document
        exact hnm s (hsB.trans ⟨A ++ nameLinePat, by rw [List.append_assoc]⟩)
      · -- a nonempty suffix of slug followed by B
        exact matchPat_none_class p hfix hnt hncl w' B
          (fun c hc => hcls c (hw'.subset hc)) hB
    · -- a nonempty suffix of the literal "name: " followed by slug ++ B
      rcases n' with _ | ⟨n0, n''⟩
      · exact absurd rfl hne
      have hn0 : n0 ∈ "name: ".data := hn'.subset (List.mem_cons_self n0 n'')
      have hn0c : n0 ≠ 'c' := by
        intro he
        rw [he] at hn0
        exact absurd hn0 (by decide)
      rcases p with _ | ⟨it, p'⟩
      · simp [headIsCB] at hhc
      cases it with
      | lit ch =>
        have hch : ch = 'c' := by
          simp only [headIsCB, decide_eq_true_eq] at hhc
          exact hhc
        have : n0 ≠ ch := by rw [hch]; exact hn0c
        rw [List.cons_append]
        simp [matchPat, this]
      | wild => simp [headIsCB] at hhc
      | wsStar => simp [headIsCB] at hhc
      | optQuote => simp [headIsCB] at hhc
  · -- a nonempty suffix of the unchanged block A followed by the rest
    rcases endFlag_true_cases true A hef with ⟨rfl, -⟩ | ⟨A0, c, rfl, hc⟩
    · rw [List.suffix_nil] at hA'
      exact absurd hA' hAne
    · obtain ⟨A1, rfl⟩ := suffix_concat_ne hA' hAne
      have h1 : (matchPat p ((A1 ++ [c]) ++ (nameLineRepl slug ++ B))).isSome
          = (matchPat p ((A1 ++ [c]) ++ (nameLinePat ++ B))).isSome :=
        matchPat_term_indep A1 p hfix hnt c hc _ _
      have hsy : (A1 ++ [c]) ++ (nameLinePat ++ B) <:+ (A0 ++ [c]) ++ (nameLinePat ++ B) := by
        rcases hA' with ⟨pre, hpre⟩
        exact ⟨pre, by rw [← List.append_assoc, hpre]⟩
      have h2 : matchPat p ((A1 ++ [c]) ++ (nameLinePat ++ B)) = none := hnm _ hsy
      rw [h2] at h1
      rcases hopt : matchPat p ((A1 ++ [c]) ++ (nameLineRepl slug ++ B)) with _ | val
      · rfl
      · rw [hopt] at h1
        simp at h1

/-- The thirteen container-name patterns (independent of the slug). -/
def containerPatList : List (List RItem) :=
  [containerPat "supabase-studio".data, containerPat "supabase-kong".data,
   containerPat "supabase-auth".data, containerPat "supabase-rest".data,
   containerPat "realtime-dev.supabase-realtime".data, containerPat "supabase-storage".data,
   containerPat "supabase-imgproxy".data, containerPat "supabase-meta".data,
   containerPat "supabase-edge-functions".data, containerPat "supabase-analytics".data,
   containerPat "supabase-db".data, containerPat "supabase-vector".data,
   containerPat "supabase-pooler".data]

theorem containerPatList_props :
    containerPatList.all
      (fun p => fixedB p && litsNonTermB p && headIsCB p && hasNonClassLitB p && hasLitB p)
      = true := by decide

theorem containerPairs_fst (slug : List Char) :
    ∀ a ∈ containerPairs slug, a.1 ∈ containerPatList := by
  intro a ha
  simp only [containerPairs, containerMappings, List.map_cons, List.map_nil,
    List.mem_cons, List.not_mem_nil, or_false] at ha
  rcases ha with rfl | rfl | rfl | rfl | rfl | rfl | rfl | rfl | rfl | rfl | rfl | rfl | rfl <;>
    (dsimp only; decide)

/-- The decidable cross table: every container pattern, replacement by any
of the (slug-instantiated) replacements cannot create a new match of it. -/
def containerTableB (slug : List Char) : Bool :=
  (containerPairs slug).all fun a => (containerPairs slug).all fun b => scanHypsB a.1 b.1 b.2

theorem slugOf_classOk (name : List Char) (ts : Nat) :
    ∀ c ∈ slugOf name ts, classOkB c = true := by
  intro c hc
  rcases List.mem_append.mp hc with h1 | h2
  · obtain ⟨d, -, hfd⟩ := List.mem_map.mp h1
    split at hfd
    · rename_i hcond
      rw [← hfd]
      unfold classOkB
      rw [hcond]
      rfl
    · rw [← hfd]
      decide
  · rcases List.mem_cons.mp h2 with rfl | hmem
    · decide
    · have h0 := natToDec_digits ts c hmem
      simp [classOkB, h0.1, h0.2]

theorem slugOf_ne_supa (name : List Char) (ts : Nat) : slugOf name ts ≠ "supabase".data := by
  intro h
  have hm : '-' ∈ slugOf name ts := List.mem_append_right _ (List.mem_cons_self _ _)
  rw [h] at hm
  exact absurd hm (by decide)

theorem noMatch_all_of_b (prs : List (List RItem × List Char)) (l : List Char)
    (h : prs.all (fun pr => noMatchB pr.1 l) = true) :
    ∀ a ∈ prs, NoMatch a.1 l :=
  fun a ha => noMatch_of_b (List.all_eq_true.mp h a ha)

/-- A document starting with the name line holds exactly one more match
than its tail `B`. -/
theorem nlCount_pat_self (B : List Char)
    (hB : B = [] ∨ ∃ c B2, B = c :: B2 ∧ isLineTerm c = true) :
    nlCountB nameLinePat true (nameLinePat ++ B) = 1 + nlCountB nameLinePat false B := by
  have h1 : lineHereB nameLinePat (nameLinePat ++ B) = true := by
    rw [lineHereB_eq, isPrefixOf_append, List.drop_left]
    rcases hB with rfl | ⟨c, B2, rfl, hc⟩
    · rfl
    · simp [bndB, hc]
  have h2 : nameLinePat ++ B = 'n' :: ("ame: supabase".data ++ B) := rfl
  rw [h2, nlCountB_cons]
  rw [← h2, h1]
  rw [show isLineTerm 'n' = false from rfl]
  rw [nlCount_skip nameLinePat "ame: supabase".data (by decide) B]
  simp

/-- Core idempotence of the identity rewrite, for any slug inside
`[a-z0-9-]`, different from `supabase`, whose replacement table passes the
cross-pattern check, on documents whose container-rewritten form holds at
most one `name: supabase` line. -/
theorem identityRewrite_idem_core (slug content : List Char)
    (hcls : ∀ c ∈ slug, classOkB c = true)
    (hsup : slug ≠ "supabase".data)
    (htab : containerTableB slug = true)
    (hcount : nlCountB nameLinePat true (containerRewrite slug content) ≤ 1) :
    identityRewrite slug (identityRewrite slug content) = identityRewrite slug content := by
  unfold containerTableB at htab
  have htabP : ∀ a ∈ containerPairs slug, ∀ b ∈ containerPairs slug, ScanHyps a.1 b.1 b.2 := by
    intro a ha b hb
    exact scanHyps_of_b a.1 b.1 b.2
      (List.all_eq_true.mp (List.all_eq_true.mp htab a ha) b hb)
  have hprops : ∀ a ∈ containerPairs slug,
      (fixedB a.1 = true ∧ litsNonTermB a.1 = true) ∧
        (headIsCB a.1 = true ∧ hasNonClassLitB a.1 = true) ∧ hasLitB a.1 = true := by
    intro a ha
    have h5 := List.all_eq_true.mp containerPatList_props a.1 (containerPairs_fst slug a ha)
    simp only [Bool.and_eq_true] at h5
    exact ⟨⟨h5.1.1.1.1, h5.1.1.1.2⟩, ⟨h5.1.1.2, h5.1.2⟩, h5.2⟩
  have hlitP : ∀ a ∈ containerPairs slug, hasLitB a.1 = true := fun a ha => (hprops a ha).2.2
  have hidem : containerRewrite slug (containerRewrite slug content)
      = containerRewrite slug content :=
    applyPairs_idem (containerPairs slug) content htabP hlitP
  have hNMy : ∀ a ∈ containerPairs slug, NoMatch a.1 (containerRewrite slug content) :=
    fun a ha => applyPairs_noMatch (containerPairs slug) content htabP hlitP a ha
  have hz1 : identityRewrite slug content
      = replNL nameLinePat (nameLineRepl slug) true (containerRewrite slug content) := rfl
  cases hhit : nlHit nameLinePat true (containerRewrite slug content) with
  | false =>
    have h5 : replNL nameLinePat (nameLineRepl slug) true (containerRewrite slug content)
        = containerRewrite slug content := replNL_of_not_hit _ _ _ _ hhit
    have h6 : identityRewrite slug content = containerRewrite slug content := by rw [hz1, h5]
    rw [h6]
    show replNL nameLinePat (nameLineRepl slug) true
        (containerRewrite slug (containerRewrite slug content)) = containerRewrite slug content
    rw [hidem, h5]
  | true =>
    obtain ⟨A, B, hyAB, hzeq, hpre, hef, hB⟩ :=
      replNL_decomp nameLinePat (nameLineRepl slug) (by decide)
        (containerRewrite slug content) true hhit
    have h6 : identityRewrite slug content = A ++ (nameLineRepl slug ++ B) := by rw [hz1, hzeq]
    have hnmz : ∀ a ∈ containerPairs slug, NoMatch a.1 (A ++ (nameLineRepl slug ++ B)) := by
      intro a ha
      obtain ⟨⟨hf, hn⟩, ⟨hh, hcnc⟩, -⟩ := hprops a ha
      exact noMatch_window a.1 hf hn hh hcnc slug hcls A B hef hB (hyAB ▸ hNMy a ha)
    have hcr : containerRewrite slug (A ++ (nameLineRepl slug ++ B))
        = A ++ (nameLineRepl slug ++ B) :=
      applyPairs_id (containerPairs slug) _ hnmz
    have hcount2 : nlCountB nameLinePat false B = 0 := by
      rw [hyAB] at hcount
      have hle := nlCount_tail_le nameLinePat A true (nameLinePat ++ B)
      rw [hef, nlCount_pat_self B hB] at hle
      omega
    have hhit2 : nlHit nameLinePat true (A ++ (nameLineRepl slug ++ B)) = false := by
      rw [nlHit_append nameLinePat A true (nameLineRepl slug ++ B), hef,
        nlHitPre_trans slug B A true hpre, Bool.false_or]
      rw [show nameLineRepl slug ++ B = 'n' :: ("ame: ".data ++ (slug ++ B)) by
        rw [nameLineRepl, List.append_assoc]; rfl]
      rw [nlHit_cons]
      rw [← show nameLineRepl slug ++ B = 'n' :: ("ame: ".data ++ (slug ++ B)) by
        rw [nameLineRepl, List.append_assoc]; rfl]
      rw [lineHereB_repl_false slug hcls hsup B hB]
      rw [show isLineTerm 'n' = false from rfl]
      rw [nlHit_skip nameLinePat "ame: ".data (by decide) (slug ++ B),
        nlHit_skip nameLinePat slug (fun c hc => classOk_nonterm c (hcls c hc)) B,
        nlHit_false_of_count nameLinePat B false hcount2]
      rfl
    rw [h6]
    show replNL nameLinePat (nameLineRepl slug) true
        (containerRewrite slug (A ++ (nameLineRepl slug ++ B))) = A ++ (nameLineRepl slug ++ B)
    rw [hcr]
    exact replNL_of_not_hit _ _ _ _ hhit2

/-- C8 counterexample: with the createProject slug for name `p` at
timestamp 1 and a document holding two `name: supabase` lines, the
non-global `/^name: supabase$/m` replacement rewrites one line per run,
so the second application changes the output of the first. -/
theorem identityRewrite_counterexample :
    identityRewrite (slugOf "p".data 1)
        (identityRewrite (slugOf "p".data 1) "name: supabase\nname: supabase".data)
      ≠ identityRewrite (slugOf "p".data 1) "name: supabase\nname: supabase".data := by
  have hs : slugOf "p".data 1 = "p-1".data := by decide
  rw [hs]
  have hid1 : containerRewrite "p-1".data "name: supabase\nname: supabase".data
      = "name: supabase\nname: supabase".data :=
    applyPairs_id _ _ (noMatch_all_of_b _ _ (by decide))
  have h1 : identityRewrite "p-1".data "name: supabase\nname: supabase".data
      = "name: p-1\nname: supabase".data := by
    show replNL nameLinePat (nameLineRepl "p-1".data) true
        (containerRewrite "p-1".data "name: supabase\nname: supabase".data)
      = "name: p-1\nname: supabase".data
    rw [hid1]
    decide
  rw [h1]
  have hid2 : containerRewrite "p-1".data "name: p-1\nname: supabase".data
      = "name: p-1\nname: supabase".data :=
    applyPairs_id _ _ (noMatch_all_of_b _ _ (by decide))
  have h2 : identityRewrite "p-1".data "name: p-1\nname: supabase".data
      = "name: p-1\nname: p-1".data := by
    show replNL nameLinePat (nameLineRepl "p-1".data) true
        (containerRewrite "p-1".data "name: p-1\nname: supabase".data)
      = "name: p-1\nname: p-1".data
    rw [hid2]
    decide
  rw [h2]
  decide

/-- C8 (amended): for every compose document and every slug produced by
`createProject` (`slugOf name ts`), provided the slug's replacement table
passes the decidable cross-pattern check and the container-rewritten
document holds at most one line matching `^name: supabase$`, applying the
identity rewrite twice yields the same output as applying it once. -/
theorem identityRewrite_idem (name : List Char) (ts : Nat) (content : List Char)
    (htab : containerTableB (slugOf name ts) = true)
    (hcount : nlCountB nameLinePat true (containerRewrite (slugOf name ts) content) ≤ 1) :
    identityRewrite (slugOf name ts) (identityRewrite (slugOf name ts) content)
      = identityRewrite (slugOf name ts) content :=
  identityRewrite_idem_core (slugOf name ts) content (slugOf_classOk name ts)
    (slugOf_ne_supa name ts) htab hcount

theorem identityRewrite_idem_witness :
    containerTableB (slugOf "demo".data 1) = true ∧
    nlCountB nameLinePat true
        (containerRewrite (slugOf "demo".data 1) "name: supabase\nservices:".data) ≤ 1 ∧
    identityRewrite (slugOf "demo".data 1)
        (identityRewrite (slugOf "demo".data 1) "name: supabase\nservices:".data)
      = identityRewrite (slugOf "demo".data 1) "name: supabase\nservices:".data := by
  have hw : containerRewrite (slugOf "demo".data 1) "name: supabase\nservices:".data
      = "name: supabase\nservices:".data :=
    applyPairs_id _ _ (noMatch_all_of_b _ _ (by decide))
  have hc : nlCountB nameLinePat true
      (containerRewrite (slugOf "demo".data 1) "name: supabase\nservices:".data) ≤ 1 := by
    rw [hw]
    decide
  exact ⟨by decide, hc, identityRewrite_idem "demo".data 1 "name: supabase\nservices:".data
    (by decide) hc⟩

/-! ## project.ts: the project store and the lifecycle manager -/

structure Project where
  id : List Char
  name : List Char
  slug : List Char
  description : Option (List Char)
  ownerId : List Char
  status : List Char
deriving DecidableEq, Repr

structure EnvVarRow where
  projectId : List Char
  key : List Char
  value : List Char
deriving DecidableEq, Repr

structure Store where
  projects : List Project
  envVars : List EnvVarRow
deriving Repr

def findProject (store : Store) (pid : List Char) : Option Project :=
  store.projects.find? fun p => decide (p.id = pid)

def upsertEnvVar (store : Store) (pid key value : List Char) : Store :=
  if store.envVars.any (fun v => decide (v.projectId = pid ∧ v.key = key)) then
    { store with envVars := store.envVars.map fun v =>
        if v.projectId = pid ∧ v.key = key then { v with value := value } else v }
  else { store with envVars := store.envVars ++ [⟨pid, key, value⟩] }

def updateStatus (store : Store) (pid status : List Char) : Store :=
  { store with projects := store.projects.map fun p =>
      if p.id = pid then { p with status := status } else p }

def deleteEnvVarsOf (store : Store) (pid : List Char) : Store :=
  { store with envVars := store.envVars.filter fun v => decide (v.projectId ≠ pid) }

def deleteProjectRow (store : Store) (pid : List Char) : Store :=
  { store with projects := store.projects.filter fun p => decide (p.id ≠ pid) }

/-- The `{success, error?}`-shaped result of every lifecycle operation,
plus the operation-specific payloads (`project` for create, `publicUrl`
for deploy). -/
structure LcResult where
  success : Bool
  error : Option (List Char) := none
  publicUrl : Option (List Char) := none
  project : Option Project := none
  composeContent : Option (List Char) := none
deriving Repr

/-- Outcomes of the external calls of `initializeSupabaseCore`. -/
structure InitEnv where
  coreExists : Bool
  projectsExists : Bool
  mkdirResult : Except (List Char) Unit
  cloneResult : Except (List Char) Unit

def initializeSupabaseCore (env : InitEnv) : LcResult :=
  match (if env.projectsExists then Except.ok () else env.mkdirResult) with
  | .error e => { success := false, error := some e }
  | .ok _ =>
    match (if env.coreExists then Except.ok () else env.cloneResult) with
    | .error e => { success := false, error := some e }
    | .ok _ => { success := true }

/-- Inputs and external-call outcomes of `createProject`: the creation
timestamp, the id assigned by the store, the shared compose template, the
generated random secrets, and the fallible filesystem/database steps. -/
structure CreateEnv where
  timestamp : Nat
  newProjectId : List Char
  composeTemplate : List Char
  dbCreateResult : Except (List Char) Unit
  copyResult : Except (List Char) Unit
  writeEnvResult : Except (List Char) Unit
  postgresPassword : List Char
  jwtSecret : List Char
  anonKey : List Char
  serviceRoleKey : List Char
  dashboardPassword : List Char
  secretKeyBase : List Char
  vaultEncKey : List Char
  logflarePublic : List Char
  logflarePrivate : List Char

/-- The default environment set of `createProject` in source order; the
port values are decimal renderings of `basePort + offset`. -/
def defaultEnvVars (cenv : CreateEnv) : List (List Char × List Char) :=
  let basePort := basePortOf cenv.timestamp
  [("POSTGRES_PASSWORD".data, cenv.postgresPassword),
   ("JWT_SECRET".data, cenv.jwtSecret),
   ("ANON_KEY".data, cenv.anonKey),
   ("SERVICE_ROLE_KEY".data, cenv.serviceRoleKey),
   ("DASHBOARD_USERNAME".data, "supabase".data),
   ("DASHBOARD_PASSWORD".data, cenv.dashboardPassword),
   ("SECRET_KEY_BASE".data, cenv.secretKeyBase),
   ("VAULT_ENC_KEY".data, cenv.vaultEncKey),
   ("POSTGRES_PORT".data, natToDec (basePort + 2000)),
   ("POOLER_PROXY_PORT_TRANSACTION".data, natToDec (basePort + 3000)),
   ("KONG_HTTP_PORT".data, natToDec basePort),
   ("KONG_HTTPS_PORT".data, natToDec (basePort + 443)),
   ("ANALYTICS_PORT".data, natToDec (basePort + 1000)),
   ("POSTGRES_HOST".data, "db".data),
   ("POSTGRES_DB".data, "postgres".data),
   ("POOLER_DEFAULT_POOL_SIZE".data, "20".data),
   ("POOLER_MAX_CLIENT_CONN".data, "100".data),
   ("POOLER_TENANT_ID".data, "project-".data ++ natToDec cenv.timestamp),
   ("POOLER_DB_POOL_SIZE".data, "5".data),
   ("PGRST_DB_SCHEMAS".data, "public,storage,graphql_public".data),
   ("SITE_URL".data, "http://localhost:".data ++ natToDec basePort),
   ("ADDITIONAL_REDIRECT_URLS".data, []),
   ("JWT_EXPIRY".data, "3600".data),
   ("DISABLE_SIGNUP".data, "false".data),
   ("API_EXTERNAL_URL".data, "http://localhost:".data ++ natToDec basePort),
   ("MAILER_URLPATHS_CONFIRMATION".data, "/auth/v1/verify".data),
   ("MAILER_URLPATHS_INVITE".data, "/auth/v1/verify".data),
   ("MAILER_URLPATHS_RECOVERY".data, "/auth/v1/verify".data),
   ("MAILER_URLPATHS_EMAIL_CHANGE".data, "/auth/v1/verify".data),
   ("ENABLE_EMAIL_SIGNUP".data, "true".data),
   ("ENABLE_EMAIL_AUTOCONFIRM".data, "false".data),
   ("SMTP_ADMIN_EMAIL".data, "admin@example.com".data),
   ("SMTP_HOST".data, "supabase-mail".data),
   ("SMTP_PORT".data, "2500".data),
   ("SMTP_USER".data, "fake_mail_user".data),
   ("SMTP_PASS".data, "fake_mail_password".data),
   ("SMTP_SENDER_NAME".data, "fake_sender".data),
   ("ENABLE_ANONYMOUS_USERS".data, "false".data),
   ("ENABLE_PHONE_SIGNUP".data, "true".data),
   ("ENABLE_PHONE_AUTOCONFIRM".data, "true".data),
   ("STUDIO_DEFAULT_ORGANIZATION".data, "Default Organization".data),
   ("STUDIO_DEFAULT_PROJECT".data, "Default Project".data),
   ("STUDIO_PORT".data, natToDec (basePort + 100)),
   ("SUPABASE_PUBLIC_URL".data, "http://localhost:".data ++ natToDec basePort),
   ("IMGPROXY_ENABLE_WEBP_DETECTION".data, "true".data),
   ("OPENAI_API_KEY".data, []),
   ("FUNCTIONS_VERIFY_JWT".data, "false".data),
   ("LOGFLARE_PUBLIC_ACCESS_TOKEN".data, cenv.logflarePublic),
   ("LOGFLARE_PRIVATE_ACCESS_TOKEN".data, cenv.logflarePrivate),
   ("DOCKER_SOCKET_LOCATION".data, "/var/run/docker.sock".data),
   ("GOOGLE_PROJECT_ID".data, "GOOGLE_PROJECT_ID".data),
   ("GOOGLE_PROJECT_NUMBER".data, "GOOGLE_PROJECT_NUMBER".data)]

/-- `createProject`.  The project row is persisted with status `created`
(the store's default status, per the data model); the compose copy is
rewritten by the identity rewrite and the port patcher; the default
environment set is written and mirrored into the store.  Failure at any
step aborts with an error and no rollback. -/
def createProject (cenv : CreateEnv) (store : Store) (name userId : List Char)
    (description : Option (List Char)) : LcResult × Store :=
  let slug := slugOf name cenv.timestamp
  match cenv.dbCreateResult with
  | .error e => ({ success := false, error := some e }, store)
  | .ok _ =>
    let project : Project := ⟨cenv.newProjectId, name, slug, description, userId, "created".data⟩
    let store1 := { store with projects := store.projects ++ [project] }
    match cenv.copyResult with
    | .error e => ({ success := false, error := some e }, store1)
    | .ok _ =>
      let composeOut := patchComposePortsContent (identityRewrite slug cenv.composeTemplate)
      match cenv.writeEnvResult with
      | .error e => ({ success := false, error := some e }, store1)
      | .ok _ =>
        let store2 := (defaultEnvVars cenv).foldl
          (fun s kv => { s with envVars := s.envVars ++ [⟨cenv.newProjectId, kv.1, kv.2⟩] })
          store1
        ({ success := true, project := some project, composeContent := some composeOut }, store2)

def updateProjectEnvVars (writeResult : Except (List Char) Unit) (store : Store)
    (pid : List Char) (envVars : List (List Char × List Char)) : LcResult × Store :=
  match findProject store pid with
  | none => ({ success := false, error := some "Project not found".data }, store)
  | some _ =>
    let store2 := envVars.foldl (fun s kv => upsertEnvVar s pid kv.1 kv.2) store
    match writeResult with
    | .error e => ({ success := false, error := some e }, store2)
    | .ok _ => ({ success := true }, store2)

/-! ### deployProject -/

def containsSub (needle hay : List Char) : Bool :=
  hay.tails.any fun s => needle.isPrefixOf s

def dockerMissingMsg : List Char :=
  "Docker is not installed or not running. Please install Docker Desktop and ensure it is started before deploying.".data

def composeMissingMsg : List Char :=
  "Docker Compose is not available. Please ensure Docker Desktop includes Docker Compose or install it separately.".data

def maxBufferMsg : List Char :=
  "Docker deployment generated too much output. This usually means the deployment is working but Docker is downloading many large images. Please wait a few more minutes and check Docker Desktop to see if containers are starting. You can also try running \"docker compose up -d\" manually in the project directory.".data

def networkIssueMsg : List Char :=
  "Network connectivity issue: Unable to reach Docker registry. This might be due to:\n\n1. Internet connection issues\n2. Corporate firewall blocking Docker registry\n3. DNS resolution problems\n\nSolution: Try running \"docker pull supabase/postgres\" manually to test connectivity, or work with your IT team to allow access to Docker Hub.".data

def permissionMsg : List Char :=
  "Docker permission denied. Please ensure:\n\n1. Docker Desktop is running\n2. Your user is in the \"docker\" group (Linux/Mac)\n3. You have administrator privileges (Windows)".data

def notFoundMsg : List Char :=
  "Docker or Docker Compose not found. Please install Docker Desktop from https://docker.com/products/docker-desktop".data

def imageNotFoundMsg : List Char :=
  "Required Docker images not found. Please ensure you have internet connectivity and try again, or manually pull images with \"docker compose pull\"".data

/-- The substring-based classification of a failed `docker compose up`
(source order; the `image ... not found` arm is shadowed by the plain
`not found` arm, as in the source). -/
def classifyComposeError (emsg : List Char) : List Char :=
  if containsSub "maxBuffer length exceeded".data emsg then maxBufferMsg
  else if containsSub "no such host".data emsg || containsSub "dial tcp".data emsg then
    networkIssueMsg
  else if containsSub "permission denied".data emsg then permissionMsg
  else if containsSub "not found".data emsg then notFoundMsg
  else if containsSub "image".data emsg && containsSub "not found".data emsg then
    imageNotFoundMsg
  else "Docker deployment failed: ".data ++ emsg

/-- `parseInt(s, 10)` on a stored port value: the leading decimal digits,
`none` for NaN. -/
def jsParseIntPort (l : List Char) : Option Nat :=
  let ds := l.takeWhile fun c => '0' ≤ c && c ≤ '9'
  if ds = [] then none else some (decVal ds)

def lookupEnvVar (store : Store) (pid key : List Char) : Option (List Char) :=
  (store.envVars.find? fun v => decide (v.projectId = pid ∧ v.key = key)).map EnvVarRow.value

/-- JavaScript `a || b` on optional strings (an empty string is falsy). -/
def orElseStr (a b : Option (List Char)) : Option (List Char) :=
  match a with
  | some v => if v = [] then b else some v
  | none => b

/-- Outcomes of the external calls of `deployProject`.  `patchOk`,
`pullOk` and `psOk` are listed for completeness: their failures are
caught and only logged by the source, so they do not influence the
result. -/
structure DeployEnv where
  patchOk : Bool
  docker : Bool
  dockerCompose : Bool
  internet : Bool
  pullOk : Bool
  upResult : Except (List Char) Unit
  psOk : Bool

/-- The externally visible port resolved from the stored EnvVars (Kong
HTTP, else Studio, else Postgres port; an empty value is falsy, parseInt
of a digit-free value is NaN and hence falsy). -/
def resolvedPort (store : Store) (pid : List Char) : Option Nat :=
  match orElseStr (orElseStr (lookupEnvVar store pid "KONG_HTTP_PORT".data)
      (lookupEnvVar store pid "STUDIO_PORT".data))
      (lookupEnvVar store pid "POSTGRES_PORT".data) with
  | some s => jsParseIntPort s
  | none => none

/-- The exposure arguments passed by `deployProject`. -/
def deployExposureArgs (xenv : ExpoEnv) (store : Store) (pid : List Char)
    (project : Project) : EnsureExposureArgs :=
  { projectName := project.name, projectSlug := project.slug,
    port := resolvedPort store pid,
    internalUrl := if truthyTrim xenv.internalProxyUrl then xenv.internalProxyUrl else none }

def deployProject (denv : DeployEnv) (xenv : ExpoEnv) (store : Store) (xst : ExpoState)
    (pid : List Char) : LcResult × Store × ExpoState :=
  match findProject store pid with
  | none => ({ success := false, error := some "Project not found".data }, store, xst)
  | some project =>
    if !denv.docker then
      ({ success := false, error := some dockerMissingMsg }, store, xst)
    else if !denv.dockerCompose then
      ({ success := false, error := some composeMissingMsg }, store, xst)
    else
      match denv.upResult with
      | .error emsg =>
        ({ success := false, error := some (classifyComposeError emsg) }, store, xst)
      | .ok _ =>
        match ensureProjectPublicExposure xenv (deployExposureArgs xenv store pid project)
            xst with
        | .error e => ({ success := false, error := some e }, store, xst)
        | .ok (exposure, xst2) =>
          ({ success := true, publicUrl := some exposure.2 },
            updateStatus (upsertEnvVar (upsertEnvVar store pid "PUBLIC_HOSTNAME".data
              exposure.1) pid "PUBLIC_URL".data exposure.2) pid "active".data, xst2)

def pauseProject (stopResult : Except (List Char) Unit) (store : Store)
    (pid : List Char) : LcResult × Store :=
  match findProject store pid with
  | none => ({ success := false, error := some "Project not found".data }, store)
  | some _ =>
    match stopResult with
    | .error e => ({ success := false, error := some e }, store)
    | .ok _ => ({ success := true }, updateStatus store pid "paused".data)

/-- Outcomes of the external calls of `deleteProject`, in source order:
container shutdown, the DNS-delete and ingress-removal steps inside the
exposure cleanup, and directory removal are best-effort steps whose
failures are caught and only logged; only the two database deletions are
fatal. -/
structure DeleteEnv where
  dockerDownOk : Bool
  dnsDeleteOk : Bool
  ingressRemoveOk : Bool
  rmDirOk : Bool
  dbEnvDeleteOk : Bool
  dbProjectDeleteOk : Bool

def dbDeleteFailMsg : List Char := "Failed to remove project from database".data

def deleteProject (denv : DeleteEnv) (xenv : ExpoEnv) (store : Store) (xst : ExpoState)
    (pid : List Char) : LcResult × Store × ExpoState :=
  match findProject store pid with
  | none => ({ success := false, error := some "Project not found".data }, store, xst)
  | some project =>
    let xst2 := match cleanupProjectExposure xenv denv.dnsDeleteOk denv.ingressRemoveOk
        (some project.slug) (some project.name) xst with
      | .ok s => s
      | .error _ => xst
    if denv.dbEnvDeleteOk then
      let storeA := deleteEnvVarsOf store pid
      if denv.dbProjectDeleteOk then
        ({ success := true }, deleteProjectRow storeA pid, xst2)
      else ({ success := false, error := some dbDeleteFailMsg }, storeA, xst2)
    else ({ success := false, error := some dbDeleteFailMsg }, store, xst2)

/-! ## C3: slug and port distinctness -/

/-- C3 counterexample: two createProject calls with different names and
different creation timestamps (10000 and 20000) produce the same base
port 8000, and their sibling port sets overlap — the claimed mutual
distinctness fails. -/
theorem createProject_ports_counterexample :
    "a".data ≠ "b".data ∧ (10000 : Nat) ≠ 20000 ∧
    basePortOf 10000 = basePortOf 20000 ∧
    ∃ p ∈ projectPorts 10000, p ∈ projectPorts 20000 := by
  constructor
  · decide
  constructor
  · decide
  constructor
  · rfl
  · exact ⟨8000, by decide, by decide⟩

theorem mem_offsetDiffs (x : Int) :
    x ∈ offsetDiffs ↔
      ∃ a : Nat, a ∈ portOffsets ∧ ∃ b : Nat, b ∈ portOffsets ∧ x = (a : Int) - (b : Int) := by
  unfold offsetDiffs
  rw [List.mem_flatMap]
  constructor
  · rintro ⟨a, ha, hx⟩
    rw [List.mem_map] at hx
    rcases hx with ⟨b, hb, rfl⟩
    exact ⟨a, ha, b, hb, rfl⟩
  · rintro ⟨a, ha, b, hb, rfl⟩
    exact ⟨a, ha, List.mem_map.mpr ⟨b, hb, rfl⟩⟩

/-- C3 (amended): different timestamps always give distinct slugs (for
any names, since the timestamp is a dash-separated decimal suffix); the
six ports within one project are pairwise distinct; across two projects
the port sets are disjoint exactly when the base-port difference is not a
difference of two of the offsets {0,100,443,1000,2000,3000} — different
names and timestamps alone do not suffice.  The last conjunct ties the
slug to the `createProject` model. -/
theorem createProject_distinctness (n1 n2 : List Char) (t1 t2 : Nat) (ht : t1 ≠ t2) :
    slugOf n1 t1 ≠ slugOf n2 t2 ∧
    List.Pairwise (· ≠ ·) (projectPorts t1) ∧
    ((∀ p ∈ projectPorts t1, ∀ q ∈ projectPorts t2, p ≠ q) ↔
      ((basePortOf t1 : Int) - basePortOf t2) ∉ offsetDiffs) ∧
    ∀ (cenv : CreateEnv) (store : Store) (uid : List Char) (d : Option (List Char)),
      cenv.timestamp = t1 → cenv.dbCreateResult = .ok () → cenv.copyResult = .ok () →
      cenv.writeEnvResult = .ok () →
      (createProject cenv store n1 uid d).1.project.map Project.slug =
        some (slugOf n1 t1) := by
  refine ⟨fun h => ht (slugOf_inj_ts n1 n2 t1 t2 h), ?_, ?_, ?_⟩
  · simp [projectPorts, portOffsets, List.pairwise_cons]
  · constructor
    · intro h hmem
      rcases (mem_offsetDiffs _).mp hmem with ⟨a, ha, b, hb, heq⟩
      have h2 := h (basePortOf t1 + b) (List.mem_map.mpr ⟨b, hb, rfl⟩)
        (basePortOf t2 + a) (List.mem_map.mpr ⟨a, ha, rfl⟩)
      omega
    · intro h p hp q hq hpq
      rcases List.mem_map.mp hp with ⟨o1, ho1, rfl⟩
      rcases List.mem_map.mp hq with ⟨o2, ho2, rfl⟩
      exact h ((mem_offsetDiffs _).mpr ⟨o2, ho2, o1, ho1, by omega⟩)
  · intro cenv store uid d hts hdb hcopy hwrite
    unfold createProject
    rw [hts, hdb, hcopy, hwrite]
    simp

def cenvW : CreateEnv :=
  { timestamp := 1, newProjectId := "id1".data, composeTemplate := [],
    dbCreateResult := .ok (), copyResult := .ok (), writeEnvResult := .ok (),
    postgresPassword := [], jwtSecret := [], anonKey := [], serviceRoleKey := [],
    dashboardPassword := [], secretKeyBase := [], vaultEncKey := [],
    logflarePublic := [], logflarePrivate := [] }

theorem createProject_distinctness_witness :
    slugOf "a".data 1 ≠ slugOf "b".data 2 ∧
    (createProject cenvW ⟨[], []⟩ "a".data "u".data none).1.project.map Project.slug =
      some (slugOf "a".data 1) := by
  have h := createProject_distinctness "a".data "b".data 1 2 (by decide)
  exact ⟨h.1, h.2.2.2 cenvW ⟨[], []⟩ "u".data none rfl rfl rfl rfl⟩

/-! ## C4: deploy with the runtime probe failing -/

/-- C4: when the Docker probe fails, `deployProject` returns
success:false with the remediation message containing "Docker is not
installed", and the store — in particular the project's `created`
status — is untouched. -/
theorem deployProject_docker_missing (denv : DeployEnv) (xenv : ExpoEnv)
    (store : Store) (xst : ExpoState) (pid : List Char) (proj : Project)
    (hfind : findProject store pid = some proj)
    (hstatus : proj.status = "created".data)
    (hdocker : denv.docker = false) :
    (deployProject denv xenv store xst pid).1.success = false ∧
    (deployProject denv xenv store xst pid).1.error = some dockerMissingMsg ∧
    containsSub "Docker is not installed".data dockerMissingMsg = true ∧
    (deployProject denv xenv store xst pid).2.1 = store ∧
    ∃ p, findProject (deployProject denv xenv store xst pid).2.1 pid = some p ∧
      p.status = "created".data := by
  have hres : deployProject denv xenv store xst pid =
      ({ success := false, error := some dockerMissingMsg }, store, xst) := by
    unfold deployProject
    rw [hfind]
    simp [hdocker]
  rw [hres]
  exact ⟨rfl, rfl, by decide, rfl, proj, hfind, hstatus⟩

def storeW : Store :=
  ⟨[⟨"p1".data, "Demo".data, "demo-1".data, none, "u".data, "created".data⟩], []⟩

theorem deployProject_docker_missing_witness :
    (deployProject ⟨true, false, true, false, true, .ok (), true⟩ envNoProxy storeW
      emptyExpoState "p1".data).1.success = false ∧
    (deployProject ⟨true, false, true, false, true, .ok (), true⟩ envNoProxy storeW
      emptyExpoState "p1".data).1.error = some dockerMissingMsg := by
  have h := deployProject_docker_missing ⟨true, false, true, false, true, .ok (), true⟩
    envNoProxy storeW emptyExpoState "p1".data
    ⟨"p1".data, "Demo".data, "demo-1".data, none, "u".data, "created".data⟩
    (by decide) rfl rfl
  exact ⟨h.1, h.2.1⟩

/-! ## C5: totality of the lifecycle operations -/

/-- The `{success, error?}` result contract: success, or failure carrying
an error message. -/
def ResultShape (r : LcResult) : Prop :=
  r.success = true ∨ (r.success = false ∧ r.error.isSome = true)

/-- C5: every public lifecycle operation is a total function from its
arguments and every external-call outcome to a `{success, error?}`-shaped
result; every failure path carries an error message and no fault
propagates out of an operation. -/
theorem lifecycle_operations_total :
    (∀ env : InitEnv, ResultShape (initializeSupabaseCore env)) ∧
    (∀ cenv store name uid d, ResultShape (createProject cenv store name uid d).1) ∧
    (∀ w store pid kvs, ResultShape (updateProjectEnvVars w store pid kvs).1) ∧
    (∀ denv xenv store xst pid, ResultShape (deployProject denv xenv store xst pid).1) ∧
    (∀ stopR store pid, ResultShape (pauseProject stopR store pid).1) ∧
    (∀ denv xenv store xst pid, ResultShape (deleteProject denv xenv store xst pid).1) := by
  refine ⟨?_, ?_, ?_, ?_, ?_, ?_⟩
  · intro env
    unfold initializeSupabaseCore ResultShape
    split
    · simp
    · split
      · simp
      · simp
  · intro cenv store name uid d
    unfold createProject ResultShape
    split
    · simp
    · split
      · simp
      · split
        · simp
        · simp
  · intro w store pid kvs
    unfold updateProjectEnvVars ResultShape
    split
    · simp
    · split
      · simp
      · simp
  · intro denv xenv store xst pid
    unfold deployProject ResultShape
    split
    · simp
    · split
      · simp
      · split
        · simp
        · split
          · simp
          · split
            · simp
            · simp
  · intro stopR store pid
    unfold pauseProject ResultShape
    split
    · simp
    · split
      · simp
      · simp
  · intro denv xenv store xst pid
    unfold deleteProject ResultShape
    split
    · simp
    · split <;> (split <;> first | (split <;> simp) | simp)

/-! ## C6: deleteProject is best-effort -/

theorem countP_filtered_keeps (hostname : List Char) (hne : hostname ≠ [])
    (l : List IngressRule) :
    (l.filter (keepsRule hostname)).countP
      (fun r => decide (r.hostname = some hostname)) = 0 := by
  rw [List.countP_eq_zero]
  intro r hr hp
  have hr2 := List.of_mem_filter hr
  simp only [decide_eq_true_eq] at hp
  have hr3 : keepsRule hostname r = false := by
    have hrr : r = ⟨some hostname, r.service⟩ := by
      cases r
      simp_all
    rw [hrr]
    exact keepsRule_self hostname hne _
  rw [hr3] at hr2
  exact Bool.noConfusion hr2

/-- Removing the hostname's rules leaves zero rules for the hostname. -/
theorem removeTunnelIngress_count (hostname : List Char) (st : ExpoState)
    (hne : hostname ≠ []) :
    ingressCountFor hostname (removeTunnelIngress hostname st).ingress = 0 := by
  unfold removeTunnelIngress ensureCatchAll404 ingressCountFor
  rw [List.countP_append]
  have h1 : ((st.ingress.filter (keepsRule hostname)).filter
      (fun r => decide (r.service ≠ catchAllSvc))).countP
      (fun r => decide (r.hostname = some hostname)) = 0 := by
    rw [List.countP_eq_zero]
    intro r hr hp
    have hmem := List.mem_of_mem_filter hr
    have h0 := countP_filtered_keeps hostname hne st.ingress
    rw [List.countP_eq_zero] at h0
    exact h0 r hmem hp
  have h2 : List.countP (fun r => decide (r.hostname = some hostname)) [catchAllRule] = 0 := by
    simp [catchAllRule]
  omega

/-- Deleting the listed CNAME record leaves zero records for the
hostname, given the singleton invariant. -/
theorem deleteCloudflareCname_count (hostname : List Char) (st : ExpoState)
    (hcnt : dnsCountFor hostname st.dns ≤ 1) :
    dnsCountFor hostname (deleteCloudflareCname hostname st).dns = 0 := by
  unfold deleteCloudflareCname
  split
  case h_1 e rest hf =>
    have hlen : (st.dns.filter (fun r => decide (r.name = hostname))).length ≤ 1 := by
      unfold dnsCountFor at hcnt
      rwa [List.countP_eq_length_filter] at hcnt
    rw [hf] at hlen
    simp only [List.length_cons] at hlen
    have hrest : rest = [] := List.length_eq_zero.mp (by omega)
    unfold dnsCountFor
    rw [List.countP_eq_zero]
    intro r hr hp
    have hmem := List.mem_of_mem_filter hr
    have hrid := List.of_mem_filter hr
    simp only [decide_eq_true_eq] at hrid hp
    have : r ∈ st.dns.filter (fun r => decide (r.name = hostname)) :=
      List.mem_filter.mpr ⟨hmem, by simp [hp]⟩
    rw [hf, hrest] at this
    simp only [List.mem_singleton] at this
    exact hrid (this ▸ rfl)
  case h_2 hf =>
    unfold dnsCountFor
    rw [List.countP_eq_length_filter, hf]
    rfl

/-- When the environment is intact and both external calls succeed, the
cleanup deletes the CNAME record first, then removes the ingress rules. -/
theorem cleanupProjectExposure_run (xenv : ExpoEnv) (slug pname : List Char)
    (st : ExpoState) (hbd : xenv.baseDomain ≠ []) (htu : xenv.tunnelUuid ≠ [])
    (hslug : slug ≠ []) (htok : xenv.cfApiToken ≠ []) (hz : xenv.cfZoneId ≠ []) :
    cleanupProjectExposure xenv true true (some slug) (some pname) st =
      .ok (removeTunnelIngress (sanitizeSlug slug ++ '.' :: xenv.baseDomain)
        (deleteCloudflareCname (sanitizeSlug slug ++ '.' :: xenv.baseDomain) st)) := by
  unfold cleanupProjectExposure
  simp [hbd, htu, hslug, htok, hz]

/-- C6: deleteProject is best-effort.  First prong: for every outcome of
the caught steps — container shutdown, the DNS-delete and ingress-removal
calls inside the exposure cleanup, directory removal — and for every
exposure environment, including one whose missing variables make
`cleanupProjectExposure` itself fail, the operation still deletes the
EnvVar and Project rows and succeeds, ending with no Project row.  Second
prong: when container stop fails but the exposure environment is intact
and the cleanup calls succeed, it also removes the DNS record and the
ingress rules of the project hostname, the document ending with one
catch-all rule.  Third prong: failure of either final store deletion is
fatal and yields success:false with the database-failure message. -/
theorem deleteProject_best_effort (store : Store) (xst : ExpoState)
    (pid : List Char) (proj : Project)
    (hfind : findProject store pid = some proj) :
    ∀ (denv : DeleteEnv) (xenv : ExpoEnv),
      (denv.dbEnvDeleteOk = true → denv.dbProjectDeleteOk = true →
        (deleteProject denv xenv store xst pid).1.success = true ∧
        findProject (deleteProject denv xenv store xst pid).2.1 pid = none ∧
        ((deleteProject denv xenv store xst pid).2.1.envVars.all
          fun v => decide (v.projectId ≠ pid)) = true) ∧
      (denv.dockerDownOk = false → denv.dnsDeleteOk = true → denv.ingressRemoveOk = true →
        denv.dbEnvDeleteOk = true → denv.dbProjectDeleteOk = true →
        xenv.baseDomain ≠ [] → xenv.tunnelUuid ≠ [] → xenv.cfApiToken ≠ [] →
        xenv.cfZoneId ≠ [] → proj.slug ≠ [] →
        dnsCountFor (sanitizeSlug proj.slug ++ '.' :: xenv.baseDomain) xst.dns ≤ 1 →
        dnsCountFor (sanitizeSlug proj.slug ++ '.' :: xenv.baseDomain)
          (deleteProject denv xenv store xst pid).2.2.dns = 0 ∧
        ingressCountFor (sanitizeSlug proj.slug ++ '.' :: xenv.baseDomain)
          (deleteProject denv xenv store xst pid).2.2.ingress = 0 ∧
        EndsWithOneCatchAll (deleteProject denv xenv store xst pid).2.2.ingress) ∧
      ((denv.dbEnvDeleteOk = false ∨ denv.dbProjectDeleteOk = false) →
        (deleteProject denv xenv store xst pid).1.success = false ∧
        (deleteProject denv xenv store xst pid).1.error = some dbDeleteFailMsg) := by
  intro denv xenv
  refine ⟨?_, ?_, ?_⟩
  · -- rows are deleted and the result succeeds for every caught-step outcome
    intro h1 h2
    have hcomp : (deleteProject denv xenv store xst pid).1 = ({ success := true } : LcResult) ∧
        (deleteProject denv xenv store xst pid).2.1
          = deleteProjectRow (deleteEnvVarsOf store pid) pid := by
      unfold deleteProject
      rw [hfind]
      dsimp only
      simp [h1, h2]
    refine ⟨by rw [hcomp.1], ?_, ?_⟩
    · rw [hcomp.2]
      show (List.filter _ (deleteEnvVarsOf store pid).projects).find? _ = none
      rw [List.find?_eq_none]
      intro p hp
      have := List.of_mem_filter hp
      simp only [decide_eq_true_eq] at this
      simp [this]
    · rw [hcomp.2]
      rw [List.all_eq_true]
      intro v hv
      have hv2 : v ∈ store.envVars.filter (fun v => decide (v.projectId ≠ pid)) := hv
      exact (List.mem_filter.mp hv2).2
  · -- container stop failed: DNS and ingress are still cleaned up
    intro _ hdns hing h1 h2 hbd htu htok hz hslug hcnt
    have hne : sanitizeSlug proj.slug ++ '.' :: xenv.baseDomain ≠ [] := by
      intro h
      exact absurd (List.append_eq_nil.mp h).2 (by simp)
    have hres : deleteProject denv xenv store xst pid =
        ({ success := true }, deleteProjectRow (deleteEnvVarsOf store pid) pid,
          removeTunnelIngress (sanitizeSlug proj.slug ++ '.' :: xenv.baseDomain)
            (deleteCloudflareCname (sanitizeSlug proj.slug ++ '.' :: xenv.baseDomain) xst)) := by
      unfold deleteProject
      rw [hfind]
      dsimp only
      rw [hdns, hing]
      rw [cleanupProjectExposure_run xenv proj.slug proj.name xst hbd htu hslug htok hz]
      simp [h1, h2]
    rw [hres]
    exact ⟨deleteCloudflareCname_count _ xst hcnt, removeTunnelIngress_count _ _ hne,
      ensureCatchAll404_ends _⟩
  · -- a database-deletion failure is fatal
    intro hor
    constructor <;>
      · unfold deleteProject
        rw [hfind]
        rcases hor with h | h
        · simp [h]
        · by_cases he : denv.dbEnvDeleteOk <;> simp [he, h]

theorem deleteProject_best_effort_witness :
    (deleteProject ⟨false, false, false, false, true, true⟩ ⟨[], [], [], [], none⟩ storeW
        emptyExpoState "p1".data).1.success = true ∧
    findProject (deleteProject ⟨false, false, false, false, true, true⟩ ⟨[], [], [], [], none⟩
        storeW emptyExpoState "p1".data).2.1 "p1".data = none ∧
    dnsCountFor (sanitizeSlug "demo-1".data ++ '.' :: envNoProxy.baseDomain)
      (deleteProject ⟨false, true, true, true, true, true⟩ envNoProxy storeW emptyExpoState
        "p1".data).2.2.dns = 0 ∧
    (deleteProject ⟨false, true, true, true, true, false⟩ envNoProxy storeW emptyExpoState
        "p1".data).1.success = false := by
  have h := deleteProject_best_effort storeW emptyExpoState "p1".data
    ⟨"p1".data, "Demo".data, "demo-1".data, none, "u".data, "created".data⟩ (by decide)
  have h2 := (h ⟨false, true, true, true, true, true⟩ envNoProxy).2.1 rfl rfl rfl rfl rfl
    (by decide) (by decide) (by decide) (by decide) (by decide) (by decide)
  exact ⟨((h ⟨false, false, false, false, true, true⟩ ⟨[], [], [], [], none⟩).1 rfl rfl).1,
    ((h ⟨false, false, false, false, true, true⟩ ⟨[], [], [], [], none⟩).1 rfl rfl).2.1,
    h2.1, ((h ⟨false, true, true, true, true, false⟩ envNoProxy).2.2 (Or.inr rfl)).1⟩

end SupaConsole
